import Mathlib

/-!
Verification development for the counselor-agent repository.

The embedding models, in Lean:
- the response normalization performed inside
  `CounselorAgent.analyze_conversation` (counselor_agent.py, lines 100-169):
  code-fence stripping, strict JSON parsing, a regex brace-scan fallback,
  field-level repair, and the exception handling around them;
- `CounselorAgent.analyze_conversation`'s surrounding control flow
  (empty-transcript short circuit at lines 30-31, prompt-construction
  failure on non-dict elements at lines 37-39, the outer
  `except Exception` at lines 159-169);
- the per-connection message loop of
  `CounselorWebSocketServer.handle_client` (websocket.py, lines 53-139):
  message dispatch, last-turn validation, the patient/counselor split and
  the carried `previous_nudges` state.

Python dynamic values are modelled by a JSON value type: dicts are
association lists in insertion order (Python 3.7+ dict semantics), and
Python exceptions are modelled with `Except`.  Out-of-scope pieces, as
simplifications faithful to how the code uses them: float JSON literals
and surrogate-pair unicode escapes are not parsed (no claim involves
them); `.lower()`/`.strip()` are modelled at ASCII level; logging and the
actual network transport are I/O and not modelled.
-/

/-! ## Python string helpers -/

/-- The characters Python's `str.strip()` removes (ASCII whitespace). -/
def isPyWs (c : Char) : Bool :=
  c = ' ' || c = '\t' || c = '\n' || c = '\r' || c = Char.ofNat 11 || c = Char.ofNat 12

/-- Python `str.strip()` on a character list. -/
def pyStripL (cs : List Char) : List Char :=
  ((cs.dropWhile isPyWs).reverse.dropWhile isPyWs).reverse

/-- Python `str.strip()` (ASCII model). -/
def pyStrip (s : String) : String := String.mk (pyStripL s.data)

/-- Python `str.lower()` on one character (ASCII model). -/
def pyLowerC (c : Char) : Char :=
  if 'A' ≤ c ∧ c ≤ 'Z' then Char.ofNat (c.toNat + 32) else c

/-- Python `str.lower()` (ASCII model). -/
def pyLower (s : String) : String := String.mk (s.data.map pyLowerC)

/-! ## Substring search: Python's `in`, `split(sep)[i]` chains -/

/-- Split a list at the first (leftmost) occurrence of `sep`, returning the
part before and the part after.  `none` when `sep` does not occur. -/
def splitFirstL (sep : List Char) : List Char → Option (List Char × List Char)
  | [] => none
  | c :: rest =>
    if sep.isPrefixOf (c :: rest) then some ([], (c :: rest).drop sep.length)
    else (splitFirstL sep rest).map (fun p => (c :: p.1, p.2))

/-- The part of `cs` strictly before the first occurrence of `sep`
(all of `cs` when `sep` does not occur): Python `cs.split(sep)[0]`. -/
def takeUntilL (sep : List Char) (cs : List Char) : List Char :=
  match splitFirstL sep cs with
  | some p => p.1
  | none => cs

/-- The part of `cs` strictly after the first occurrence of `sep`. -/
def afterFirstL (sep : List Char) (cs : List Char) : List Char :=
  match splitFirstL sep cs with
  | some p => p.2
  | none => cs

/-- Python's `sep in cs` substring test. -/
def hasSubL (sep : List Char) (cs : List Char) : Bool :=
  (splitFirstL sep cs).isSome

/-! ## JSON values and Python dict operations -/

/-- JSON values as produced by `json.loads`; objects keep insertion order,
mirroring Python 3.7+ dicts. -/
inductive Json where
  | null
  | bool (b : Bool)
  | num (n : Int)
  | str (s : String)
  | arr (l : List Json)
  | obj (kvs : List (String × Json))

abbrev Dict := List (String × Json)

/-- Python `d[k]` / `k in d` lookup (keys are unique by construction). -/
def dictGet : Dict → String → Option Json
  | [], _ => none
  | (k, v) :: rest, key => if k = key then some v else dictGet rest key

/-- Python `d.get(k, default)`. -/
def dictGetD (d : Dict) (key : String) (dflt : Json) : Json :=
  match dictGet d key with
  | some v => v
  | none => dflt

/-- Python `k in d`. -/
def hasKey (d : Dict) (key : String) : Bool := (dictGet d key).isSome

/-- Python `d[k] = v`: update in place if the key exists (keeping its
position), otherwise append at the end, preserving insertion order. -/
def dictSet : Dict → String → Json → Dict
  | [], key, val => [(key, val)]
  | (k, v) :: rest, key, val =>
    if k = key then (k, val) :: rest else (k, v) :: dictSet rest key val

/-- Python truthiness of a JSON-decoded value. -/
def pyTruthy : Json → Bool
  | .null => false
  | .bool b => b
  | .num n => n ≠ 0
  | .str s => s ≠ ""
  | .arr l => !l.isEmpty
  | .obj kvs => !kvs.isEmpty

/-- Whether a value is a Python dict (decoded JSON object). -/
def Json.isObj : Json → Bool
  | .obj _ => true
  | _ => false

/-! ## JSON parsing: model of `json.loads` -/

def lbrace : Char := Char.ofNat 123

def rbrace : Char := Char.ofNat 125

/-- JSON whitespace (what `json.loads` skips between tokens). -/
def isJWs (c : Char) : Bool := c = ' ' || c = '\t' || c = '\n' || c = '\r'

def skipWs : List Char → List Char
  | [] => []
  | c :: r => if isJWs c then skipWs r else c :: r

def hexVal (c : Char) : Option Nat :=
  if '0' ≤ c ∧ c ≤ '9' then some (c.toNat - 48)
  else if 'a' ≤ c ∧ c ≤ 'f' then some (c.toNat - 87)
  else if 'A' ≤ c ∧ c ≤ 'F' then some (c.toNat - 55)
  else none

/-- The single-character JSON escapes. -/
def escMap (e : Char) : Option Char :=
  if e = '"' then some '"'
  else if e = '\\' then some '\\'
  else if e = '/' then some '/'
  else if e = 'b' then some (Char.ofNat 8)
  else if e = 'f' then some (Char.ofNat 12)
  else if e = 'n' then some '\n'
  else if e = 'r' then some '\r'
  else if e = 't' then some '\t'
  else none

/-- Body of a JSON string literal, after the opening quote: standard
escapes and `\uXXXX`; raw control characters rejected (strict mode).
Surrogate-pair combining is not modelled. -/
def parseStringBody : List Char → Option (List Char × List Char)
  | [] => none
  | c :: rest =>
    if c = '"' then some ([], rest)
    else if c = '\\' then
      match rest with
      | [] => none
      | e :: rest2 =>
        if e = 'u' then
          match rest2 with
          | a :: b :: c2 :: d :: rest3 =>
            match hexVal a, hexVal b, hexVal c2, hexVal d with
            | some x1, some x2, some x3, some x4 =>
              (parseStringBody rest3).map
                (fun p => (Char.ofNat (((x1 * 16 + x2) * 16 + x3) * 16 + x4) :: p.1, p.2))
            | _, _, _, _ => none
          | _ => none
        else
          match escMap e with
          | some u => (parseStringBody rest2).map (fun p => (u :: p.1, p.2))
          | none => none
    else if c.toNat < 32 then none
    else (parseStringBody rest).map (fun p => (c :: p.1, p.2))

def isDig (c : Char) : Bool := '0' ≤ c && c ≤ '9'

def digitsToNat (ds : List Char) : Nat :=
  ds.foldl (fun a c => a * 10 + (c.toNat - 48)) 0

/-- Integer JSON literals (float literals are outside the model's scope:
inputs containing them are treated as parse failures). -/
def parseNum (s : List Char) : Option (Json × List Char) :=
  match s with
  | '-' :: r =>
    let ds := r.takeWhile isDig
    let rest := r.dropWhile isDig
    if ds = [] then none
    else match rest with
      | c :: _ =>
        if c = '.' || c = 'e' || c = 'E' then none
        else some (.num (-(digitsToNat ds : Int)), rest)
      | [] => some (.num (-(digitsToNat ds : Int)), rest)
  | _ =>
    let ds := s.takeWhile isDig
    let rest := s.dropWhile isDig
    if ds = [] then none
    else match rest with
      | c :: _ =>
        if c = '.' || c = 'e' || c = 'E' then none
        else some (.num (digitsToNat ds : Int), rest)
      | [] => some (.num (digitsToNat ds : Int), rest)

/-- What the recursive-descent parser is currently reading. -/
inductive PMode where
  | value
  | elems (acc : List Json)
  | members (acc : Dict)

/-- Recursive-descent JSON parser, fuel-indexed so that it is structurally
recursive; `loads` supplies fuel exceeding the input length, which every
recursive call consumes at least one character of. -/
def parseCore : Nat → PMode → List Char → Option (Json × List Char)
  | 0, _, _ => none
  | n + 1, .value, s =>
    match skipWs s with
    | [] => none
    | c :: r =>
      if c = lbrace then
        match skipWs r with
        | c2 :: r2 => if c2 = rbrace then some (.obj [], r2) else parseCore n (.members []) r
        | [] => none
      else if c = '[' then
        match skipWs r with
        | c2 :: r2 => if c2 = ']' then some (.arr [], r2) else parseCore n (.elems []) r
        | [] => none
      else if c = '"' then
        match parseStringBody r with
        | some (cs, rest) => some (.str (String.mk cs), rest)
        | none => none
      else if c = 't' then
        match r with
        | 'r' :: 'u' :: 'e' :: rest => some (.bool true, rest)
        | _ => none
      else if c = 'f' then
        match r with
        | 'a' :: 'l' :: 's' :: 'e' :: rest => some (.bool false, rest)
        | _ => none
      else if c = 'n' then
        match r with
        | 'u' :: 'l' :: 'l' :: rest => some (.null, rest)
        | _ => none
      else parseNum (c :: r)
  | n + 1, .elems acc, s =>
    match parseCore n .value s with
    | some (v, r) =>
      (match skipWs r with
       | c :: r2 =>
         if c = ']' then some (.arr (acc ++ [v]), r2)
         else if c = ',' then parseCore n (.elems (acc ++ [v])) r2
         else none
       | [] => none)
    | none => none
  | n + 1, .members acc, s =>
    match skipWs s with
    | c :: r =>
      if c = '"' then
        match parseStringBody r with
        | some (k, r1) =>
          (match skipWs r1 with
           | c2 :: r2 =>
             if c2 = ':' then
               match parseCore n .value r2 with
               | some (v, r3) =>
                 (match skipWs r3 with
                  | c3 :: r4 =>
                    if c3 = rbrace then some (.obj (dictSet acc (String.mk k) v), r4)
                    else if c3 = ',' then parseCore n (.members (dictSet acc (String.mk k) v)) r4
                    else none
                  | [] => none)
               | none => none
             else none
           | [] => none)
        | none => none
      else none
    | [] => none

/-- Model of `json.loads`: parse one value, allow trailing whitespace only. -/
def loads (s : String) : Option Json :=
  match parseCore (s.data.length + 1) .value s.data with
  | some (j, rest) => if skipWs rest = [] then some j else none
  | none => none

/-! ## The brace-scan fallback regex

Model of `re.search(r"\x7b[^\x7b\x7d]*(?:\x7b[^\x7b\x7d]*\x7d[^\x7b\x7d]*)*\x7d", text)`:
after an opening brace, the regex matches up to the first balanced closing
brace tolerating one level of nesting; a second-level opening brace makes
the match at that start position fail, and the scan resumes at later
positions. -/

/-- Try to complete a match started just after an opening brace.
`d` is the current nesting depth (0 or 1), `acc` the consumed interior in
reverse; returns the full matched block including both braces. -/
def braceFrom : Nat → List Char → List Char → Option (List Char)
  | _, _, [] => none
  | d, acc, c :: rest =>
    if c = rbrace then
      if d = 0 then some (lbrace :: (acc.reverse ++ [rbrace]))
      else braceFrom 0 (c :: acc) rest
    else if c = lbrace then
      if d = 0 then braceFrom 1 (c :: acc) rest else none
    else braceFrom d (c :: acc) rest

/-- Leftmost match of the fallback regex, scanning start positions in
order as `re.search` does. -/
def braceScanL : List Char → Option (List Char)
  | [] => none
  | c :: rest =>
    if c = lbrace then
      match braceFrom 0 [] rest with
      | some m => some m
      | none => braceScanL rest
    else braceScanL rest

/-! ## Result normalization (counselor_agent.py lines 100-169) -/

/-- Python exceptions that the modelled code can raise or catch. -/
inductive PyExc where
  | typeError
  | attributeError
  | keyError
deriving DecidableEq

/-- The code-fence stripping of lines 101-104: if "```json" occurs, take
what lies between it and the next "```" and strip it; else the same for a
plain "```" fence; else leave the text unchanged. -/
def stripFence (s : String) : String :=
  if hasSubL "```json".data s.data then
    String.mk (pyStripL (takeUntilL "```".data (afterFirstL "```json".data s.data)))
  else if hasSubL "```".data s.data then
    String.mk (pyStripL (takeUntilL "```".data (afterFirstL "```".data s.data)))
  else s

/-- Is an optional field value a Python list? (`isinstance(x, list)`) -/
def isListVal : Option Json → Bool
  | some (.arr _) => true
  | _ => false

/-- Lines 107-110 pattern: replace a field with `[]` when it is absent or
not a list. -/
def defaultList (d : Dict) (k : String) : Dict :=
  if isListVal (dictGet d k) then d else dictSet d k (.arr [])

/-- `word.lower().strip()` on a decoded JSON value (identity off strings;
the caller raises before applying it to a non-string). -/
def lowerTrimJ : Json → Json
  | .str s => .str (pyStrip (pyLower s))
  | j => j

def isStrVal : Json → Bool
  | .str _ => true
  | _ => false

/-- Lines 111-112 pattern: replace `sentiment` with `["neutral"]` when it
is absent or not a list. -/
def sentDefault (d : Dict) : Dict :=
  if isListVal (dictGet d "sentiment") then d
  else dictSet d "sentiment" (.arr [.str "neutral"])

/-- Lines 117-120 pattern: default a field only when the key is absent,
with no type check. -/
def presenceDefault (d : Dict) (k : String) (v : Json) : Dict :=
  if hasKey d k then d else dictSet d k v

/-- Lines 113-116: `[word.lower().strip() for word in result["sentiment"]]`,
which raises `AttributeError` at the first non-string entry.  The
`if result["sentiment"]:` guard means an empty list is left untouched. -/
def mapSentiment (d : Dict) : Except PyExc Dict :=
  match dictGet d "sentiment" with
  | some (.arr []) => .ok d
  | some (.arr l) =>
    if l.all isStrVal then .ok (dictSet d "sentiment" (.arr (l.map lowerTrimJ)))
    else .error .attributeError
  | _ => .ok d

/-- Field-level repair of the strict-parse path (lines 107-122).  A
non-dict parse result raises `TypeError` at the first subscript or
assignment; `risk` and `follow_up` are defaulted on absence only, with no
type check. -/
def strictRepair (j : Json) : Except PyExc Dict :=
  match j with
  | .obj kvs =>
    match mapSentiment (sentDefault (defaultList (defaultList kvs "problems") "nudges")) with
    | .error e => .error e
    | .ok d4 =>
      .ok (presenceDefault (presenceDefault d4 "follow_up" (.str "")) "risk" (.arr []))
  | _ => .error .typeError

/-- Field-level repair of the brace-scan fallback path (lines 133-146):
the same defaults, but with no lower-casing/trimming of sentiment
entries.  A `TypeError` here would escape `analyze_conversation` (it is
raised inside the `except json.JSONDecodeError` handler, whose inner
`except` does not catch `TypeError`), but the branch is unreachable since
the matched text always starts with an opening brace. -/
def fallbackRepair (j : Json) : Except PyExc Dict :=
  match j with
  | .obj kvs =>
    .ok (presenceDefault (presenceDefault
      (sentDefault (defaultList (defaultList kvs "problems") "nudges"))
      "follow_up" (.str "")) "risk" (.arr []))
  | _ => .error .typeError

/-- Line 31: the result returned for an empty transcript list.  Note it
has only three fields. -/
def emptyResult : Dict :=
  [("problems", .arr []), ("nudges", .arr []), ("sentiment", .arr [.str "neutral"])]

/-- Lines 152-158: the fixed degraded result when both parse stages fail. -/
def degradedResult : Dict :=
  [("problems", .arr [.str "Unable to analyze"]),
   ("nudges", .arr [.str "Review conversation manually"]),
   ("sentiment", .arr [.str "neutral"]),
   ("follow_up", .str ""),
   ("risk", .arr [])]

/-- Lines 163-169: the result substituted by the outer `except Exception`
handler (analyzer transport failure, or `TypeError`/`AttributeError`
raised by the strict-path repair). -/
def errorResult : Dict :=
  [("problems", .arr [.str "Error occurred"]),
   ("nudges", .arr []),
   ("sentiment", .arr [.str "neutral"]),
   ("follow_up", .str ""),
   ("risk", .arr [])]

/-- Lines 100-169: normalization of the analyzer's raw text.  `Except` is
the exception boundary of `analyze_conversation`: `.error` means an
exception escapes to the caller (only possible through the unreachable
non-object fallback branch). -/
def normalizeText (raw : String) : Except PyExc Dict :=
  let t := stripFence (pyStrip raw)
  match loads t with
  | some j =>
    match strictRepair j with
    | .ok d => .ok d
    | .error _ => .ok errorResult
  | none =>
    match braceScanL t.data with
    | some m =>
      match loads (String.mk m) with
      | some j2 => fallbackRepair j2
      | none => .ok degradedResult
    | none => .ok degradedResult

/-! ## `CounselorAgent.analyze_conversation` -/

/-- A transport/auth failure of the external analyzer call. -/
inductive ApiErr where
  | transport (msg : String)
deriving DecidableEq

/-- `analyze_conversation(transcripts, previous_nudges)`.  The external
call's outcome is the oracle parameter `call` (the analyzer is out of
scope); `previous_nudges` only feeds the prompt, so it does not influence
the result.  A non-dict transcript element makes the prompt-construction
loop (lines 37-39) raise `AttributeError` before the `try` block, which
escapes to the caller. -/
def analyze_conversation (transcripts : List Json) (previous_nudges : Json)
    (call : Except ApiErr String) : Except PyExc Dict :=
  if transcripts.isEmpty then .ok emptyResult
  else if transcripts.all Json.isObj then
    match call with
    | .ok raw => normalizeText raw
    | .error _ => .ok errorResult
  else .error .attributeError

/-! ## `CounselorWebSocketServer.handle_client` message loop -/

/-- Outbound messages the handler can send in response to one inbound
message (payloads restricted to the fields the code fills in). -/
inductive OutMsg where
  | analysisMsg (problems nudges sentiment : Json)
  | acknowledged
  | pong
  | unknownType
  | invalidJson
  | excError (e : PyExc)

/-- The observable outcome of processing one inbound message: the new
`previous_nudges`, the replies sent, and the `analyze_conversation`
invocations made (transcripts passed, guidance supplied as context). -/
structure StepOut where
  nudges : Json
  outs : List OutMsg
  invs : List (List Json × Json)

/-- Lines 56-108: the `type == "transcript"` branch.  `prev` is the
session's `previous_nudges`.  Dynamic-typing failures (subscripting a
non-list, `.get` on a non-dict, `.lower()` on a non-string) surface as
the generic `except Exception` error reply of lines 130-139. -/
def handleTranscript (prev : Json) (kvs : Dict) (call : Except ApiErr String) : StepOut :=
  let transcripts := dictGetD kvs "transcripts" (.arr [])
  if pyTruthy transcripts then
    match transcripts with
    | .arr l =>
      match l.getLast? with
      | none => ⟨prev, [], []⟩
      | some last =>
        if pyTruthy last then
          match last with
          | .obj turnKvs =>
            match dictGetD turnKvs "speaker" (.str "") with
            | .str sp =>
              let speaker := pyLower sp
              let text := dictGetD turnKvs "text" (.str "")
              if (speaker = "patient" ∨ speaker = "counselor") ∧ pyTruthy text then
                if speaker = "patient" then
                  match analyze_conversation l prev call with
                  | .ok d =>
                    ⟨dictGetD d "nudges" (.arr []),
                     [.analysisMsg (dictGetD d "problems" (.arr []))
                        (dictGetD d "nudges" (.arr []))
                        (dictGetD d "sentiment" (.arr [.str "neutral"]))],
                     [(l, prev)]⟩
                  | .error e => ⟨prev, [.excError e], [(l, prev)]⟩
                else ⟨prev, [.acknowledged], []⟩
              else ⟨prev, [], []⟩
            | _ => ⟨prev, [.excError .attributeError], []⟩
          | .str _ => ⟨prev, [.excError .attributeError], []⟩
          | .arr _ => ⟨prev, [.excError .attributeError], []⟩
          | _ => ⟨prev, [.excError .attributeError], []⟩
        else ⟨prev, [], []⟩
    | .str _ => ⟨prev, [.excError .attributeError], []⟩
    | .obj _ => ⟨prev, [.excError .keyError], []⟩
    | _ => ⟨prev, [.excError .typeError], []⟩
  else ⟨prev, [], []⟩

/-- Lines 53-139: processing of one inbound websocket message.  `none`
models text that is not valid JSON (the `except json.JSONDecodeError`
reply of lines 123-129). -/
def handleMessage (prev : Json) (inbound : Option Json)
    (call : Except ApiErr String) : StepOut :=
  match inbound with
  | none => ⟨prev, [.invalidJson], []⟩
  | some (.obj kvs) =>
    match dictGet kvs "type" with
    | some (.str t) =>
      if t = "transcript" then handleTranscript prev kvs call
      else if t = "ping" then ⟨prev, [.pong], []⟩
      else ⟨prev, [.unknownType], []⟩
    | _ => ⟨prev, [.unknownType], []⟩
  | some _ => ⟨prev, [.excError .attributeError], []⟩

/-- The `async for message in websocket` loop over a whole inbound trace,
threading `previous_nudges` (initially the empty list, line 39). -/
def handleMessages (prev : Json) :
    List (Option Json × Except ApiErr String) → StepOut
  | [] => ⟨prev, [], []⟩
  | (m, c) :: rest =>
    let r := handleMessage prev m c
    let rr := handleMessages r.nudges rest
    ⟨rr.nudges, r.outs ++ rr.outs, r.invs ++ rr.invs⟩

/-! ## Claim-side (specification) functions -/

/-- Does every field of `problems, nudges, sentiment, follow_up, risk`
occur in the dict? -/
def fiveKeys (d : Dict) : Bool :=
  hasKey d "problems" && hasKey d "nudges" && hasKey d "sentiment" &&
    hasKey d "follow_up" && hasKey d "risk"

/-- Claim-side characterization of an inbound message that is an accepted
patient transcript turn; returns the transcript list passed to analysis. -/
def acceptedPatient (inbound : Option Json) : Option (List Json) :=
  match inbound with
  | some (.obj kvs) =>
    match dictGet kvs "type" with
    | some (.str t) =>
      if t = "transcript" then
        match dictGetD kvs "transcripts" (.arr []) with
        | .arr l =>
          if pyTruthy (.arr l) then
            match l.getLast? with
            | some (.obj turnKvs) =>
              if pyTruthy (.obj turnKvs) then
                match dictGetD turnKvs "speaker" (.str "") with
                | .str sp =>
                  if pyLower sp = "patient" ∧
                      pyTruthy (dictGetD turnKvs "text" (.str "")) then some l
                  else none
                | _ => none
              else none
            | _ => none
          else none
        | _ => none
      else none
    | _ => none
  | _ => none

/-- The analysis result a trace step produces, when it is an accepted
patient turn whose analysis completes (the supplied guidance does not
influence the result, so a fixed empty list stands in for it). -/
def stepAnalysis (step : Option Json × Except ApiErr String) : Option Dict :=
  match acceptedPatient step.1 with
  | some l => (analyze_conversation l (.arr []) step.2).toOption
  | none => none

/-- Claim-side carried guidance after a trace: the `nudges` field of the
most recent completed patient-turn analysis, empty if there is none. -/
def guidanceSpec (steps : List (Option Json × Except ApiErr String)) : Json :=
  match (steps.filterMap stepAnalysis).getLast? with
  | some d => dictGetD d "nudges" (.arr [])
  | none => .arr []

/-! ## Canonical JSON encoding of a valid AnalysisResult (for C8)

The round-trip claim speaks of `json-encode(validResult)`; we model it
with a canonical JSON encoder (compact separators, minimal escaping:
quote, backslash, and control characters as six-character `\u00XX`
escapes). -/

/-- A fully-populated, correctly-typed AnalysisResult. -/
structure AnalysisResult where
  problems : List String
  nudges : List String
  sentiment : List String
  follow_up : String
  risk : List String

/-- The Python dict a valid AnalysisResult denotes. -/
def toDict (r : AnalysisResult) : Dict :=
  [("problems", .arr (r.problems.map .str)),
   ("nudges", .arr (r.nudges.map .str)),
   ("sentiment", .arr (r.sentiment.map .str)),
   ("follow_up", .str r.follow_up),
   ("risk", .arr (r.risk.map .str))]

def hexDig (n : Nat) : Char :=
  if n < 10 then Char.ofNat (48 + n) else Char.ofNat (87 + n)

/-- JSON string escaping for one character. -/
def escChar (c : Char) : List Char :=
  if c = '"' then ['\\', '"']
  else if c = '\\' then ['\\', '\\']
  else if c.toNat < 32 then ['\\', 'u', '0', '0', hexDig (c.toNat / 16), hexDig (c.toNat % 16)]
  else [c]

def escList : List Char → List Char
  | [] => []
  | c :: cs => escChar c ++ escList cs

/-- A JSON string literal. -/
def encStrL (s : String) : List Char := '"' :: (escList s.data ++ ['"'])

/-- The encoding of the remaining elements of a string array, including
the closing bracket, followed by `rest`. -/
def encTail : List String → List Char → List Char
  | [], rest => ']' :: rest
  | s :: l, rest => ',' :: (encStrL s ++ encTail l rest)

/-- A JSON array of strings. -/
def encArrL : List String → List Char
  | [] => ['[', ']']
  | s :: l => '[' :: (encStrL s ++ encTail l [])

/-- The canonical JSON encoding of a valid AnalysisResult. -/
def encodeResultL (r : AnalysisResult) : List Char :=
  lbrace :: (encStrL "problems" ++ ':' :: (encArrL r.problems ++ ',' ::
    (encStrL "nudges" ++ ':' :: (encArrL r.nudges ++ ',' ::
    (encStrL "sentiment" ++ ':' :: (encArrL r.sentiment ++ ',' ::
    (encStrL "follow_up" ++ ':' :: (encStrL r.follow_up ++ ',' ::
    (encStrL "risk" ++ ':' :: (encArrL r.risk ++ [rbrace]))))))))))

def encodeResult (r : AnalysisResult) : String := String.mk (encodeResultL r)

/-- Does the fallback stage of normalization fail on this (already
fence-stripped) text?  Either the brace scan finds nothing, or the
matched substring does not parse. -/
def fallbackFails (t : String) : Bool :=
  match braceScanL t.data with
  | some m => (loads (String.mk m)).isNone
  | none => true

/-- Probe used to distinguish dicts without deciding full JSON equality:
the first entry of the `problems` field when it is a string. -/
def firstProblem (d : Dict) : String :=
  match dictGet d "problems" with
  | some (.arr (.str s :: _)) => s
  | _ => ""

/-- Claim-side description of the list-field repair: the field's value
when it is present as a list, the empty list otherwise. -/
def listOr (o : Option Json) : Json :=
  match o with
  | some (.arr l) => .arr l
  | _ => .arr []

/-- Claim-side description of the sentiment value after defaulting: the
parsed entries when present as a list, `["neutral"]` otherwise. -/
def sentimentBase (kvs : Dict) : List Json :=
  match dictGet kvs "sentiment" with
  | some (.arr l) => l
  | _ => [.str "neutral"]

/-! ## Dictionary lemmas -/

theorem dictGet_dictSet_self (d : Dict) (k : String) (v : Json) :
    dictGet (dictSet d k v) k = some v := by
  induction d with
  | nil => simp [dictSet, dictGet]
  | cons hd tl ih =>
    obtain ⟨k1, v1⟩ := hd
    by_cases h : k1 = k
    · subst h; simp [dictSet, dictGet]
    · simp [dictSet, dictGet, h, ih]

theorem dictGet_dictSet_ne (d : Dict) {k k' : String} (v : Json) (h : k' ≠ k) :
    dictGet (dictSet d k v) k' = dictGet d k' := by
  have h2 : ¬k = k' := fun hh => h hh.symm
  induction d with
  | nil => simp [dictSet, dictGet, h2]
  | cons hd tl ih =>
    obtain ⟨k1, v1⟩ := hd
    by_cases h1 : k1 = k
    · subst h1
      simp [dictSet, dictGet, h2]
    · simp [dictSet, dictGet, h1, ih]

theorem hasKey_dictSet_self (d : Dict) (k : String) (v : Json) :
    hasKey (dictSet d k v) k = true := by
  simp [hasKey, dictGet_dictSet_self]

theorem hasKey_dictSet_mono (d : Dict) {k' : String} (k : String) (v : Json)
    (h : hasKey d k' = true) : hasKey (dictSet d k v) k' = true := by
  by_cases hk : k' = k
  · subst hk; exact hasKey_dictSet_self d k' v
  · simpa [hasKey, dictGet_dictSet_ne d v hk] using h

theorem dictSet_same (d : Dict) (k : String) (v : Json)
    (h : dictGet d k = some v) : dictSet d k v = d := by
  induction d with
  | nil => simp [dictGet] at h
  | cons hd tl ih =>
    obtain ⟨k1, v1⟩ := hd
    by_cases h1 : k1 = k
    · subst h1
      simp [dictGet] at h
      simp [dictSet, h]
    · simp [dictGet, h1] at h
      simp [dictSet, h1, ih h]

theorem hasKey_of_isListVal {d : Dict} {k : String}
    (h : isListVal (dictGet d k) = true) : hasKey d k = true := by
  unfold isListVal at h
  unfold hasKey
  cases hg : dictGet d k with
  | none => rw [hg] at h; simp at h
  | some v => simp

/-! ## Lemmas about the repair pipeline -/

theorem dictGet_defaultList_self (d : Dict) (k : String) :
    dictGet (defaultList d k) k = some (listOr (dictGet d k)) := by
  unfold defaultList listOr isListVal
  cases hg : dictGet d k with
  | none => simp [dictGet_dictSet_self]
  | some v =>
    cases v <;> simp [dictGet_dictSet_self, hg]

theorem dictGet_defaultList_ne (d : Dict) {k k' : String} (h : k' ≠ k) :
    dictGet (defaultList d k) k' = dictGet d k' := by
  unfold defaultList
  by_cases hl : isListVal (dictGet d k)
  · simp [hl]
  · simp [hl, dictGet_dictSet_ne d _ h]

theorem hasKey_defaultList_mono (d : Dict) {k' : String} (k : String)
    (h : hasKey d k' = true) : hasKey (defaultList d k) k' = true := by
  unfold defaultList
  by_cases hl : isListVal (dictGet d k)
  · simpa [hl]
  · simp only [hl, if_neg, Bool.false_eq_true, if_false]
    exact hasKey_dictSet_mono d k _ h

theorem hasKey_defaultList_self (d : Dict) (k : String) :
    hasKey (defaultList d k) k = true := by
  unfold hasKey
  rw [dictGet_defaultList_self]
  simp

theorem dictGet_sentDefault_self (d : Dict) :
    dictGet (sentDefault d) "sentiment" = some (.arr (sentimentBase d)) := by
  unfold sentDefault sentimentBase isListVal
  cases hg : dictGet d "sentiment" with
  | none => simp [dictGet_dictSet_self]
  | some v => cases v <;> simp [dictGet_dictSet_self, hg]

theorem dictGet_sentDefault_ne (d : Dict) {k : String} (h : k ≠ "sentiment") :
    dictGet (sentDefault d) k = dictGet d k := by
  unfold sentDefault
  by_cases hl : isListVal (dictGet d "sentiment")
  · simp [hl]
  · simp [hl, dictGet_dictSet_ne d _ h]

theorem hasKey_sentDefault_mono (d : Dict) {k : String}
    (h : hasKey d k = true) : hasKey (sentDefault d) k = true := by
  unfold sentDefault
  by_cases hl : isListVal (dictGet d "sentiment")
  · simpa [hl]
  · simp only [hl, Bool.false_eq_true, if_false]
    exact hasKey_dictSet_mono d _ _ h

theorem dictGet_presenceDefault_self (d : Dict) (k : String) (v : Json) :
    dictGet (presenceDefault d k v) k = some (dictGetD d k v) := by
  unfold presenceDefault hasKey dictGetD
  cases hg : dictGet d k with
  | none => simp [hg, dictGet_dictSet_self]
  | some w => simp [hg]

theorem dictGet_presenceDefault_ne (d : Dict) {k k' : String} (v : Json) (h : k' ≠ k) :
    dictGet (presenceDefault d k v) k' = dictGet d k' := by
  unfold presenceDefault
  by_cases hk : hasKey d k
  · simp [hk]
  · simp [hk, dictGet_dictSet_ne d _ h]

theorem hasKey_presenceDefault_self (d : Dict) (k : String) (v : Json) :
    hasKey (presenceDefault d k v) k = true := by
  unfold hasKey
  rw [dictGet_presenceDefault_self]
  simp

theorem hasKey_presenceDefault_mono (d : Dict) {k' : String} (k : String) (v : Json)
    (h : hasKey d k' = true) : hasKey (presenceDefault d k v) k' = true := by
  unfold presenceDefault
  by_cases hk : hasKey d k
  · simpa [hk]
  · simp only [hk, Bool.false_eq_true, if_false]
    exact hasKey_dictSet_mono d _ _ h

theorem mapSentiment_get_ne {d d' : Dict} (h : mapSentiment d = .ok d')
    {k : String} (hk : k ≠ "sentiment") : dictGet d' k = dictGet d k := by
  unfold mapSentiment at h
  cases hg : dictGet d "sentiment" with
  | none => rw [hg] at h; cases h; rfl
  | some v =>
    rw [hg] at h
    cases v with
    | arr l =>
      cases l with
      | nil => cases h; rfl
      | cons a t =>
        by_cases ha : (a :: t).all isStrVal
        · simp only [ha, if_pos] at h
          cases h
          exact dictGet_dictSet_ne d _ hk
        · simp [ha] at h
    | null => cases h; rfl
    | bool b => cases h; rfl
    | num n => cases h; rfl
    | str s => cases h; rfl
    | obj kvs => cases h; rfl

theorem mapSentiment_get_self {d d' : Dict} {l : List Json}
    (hg : dictGet d "sentiment" = some (.arr l)) (h : mapSentiment d = .ok d') :
    dictGet d' "sentiment" = some (.arr (l.map lowerTrimJ)) := by
  unfold mapSentiment at h
  rw [hg] at h
  cases l with
  | nil => cases h; simpa using hg
  | cons a t =>
    by_cases ha : (a :: t).all isStrVal
    · simp only [ha, if_pos] at h
      cases h
      exact dictGet_dictSet_self d _ _
    · simp [ha] at h

theorem mapSentiment_hasKey_mono {d d' : Dict} (h : mapSentiment d = .ok d')
    {k : String} (hk : hasKey d k = true) : hasKey d' k = true := by
  by_cases hs : k = "sentiment"
  · subst hs
    cases hg : dictGet d "sentiment" with
    | none =>
      unfold hasKey at hk
      rw [hg] at hk
      simp at hk
    | some v =>
      cases v with
      | arr l =>
        unfold hasKey
        rw [mapSentiment_get_self hg h]
        simp
      | null => unfold mapSentiment at h; rw [hg] at h; cases h; exact hk
      | bool b => unfold mapSentiment at h; rw [hg] at h; cases h; exact hk
      | num n => unfold mapSentiment at h; rw [hg] at h; cases h; exact hk
      | str s => unfold mapSentiment at h; rw [hg] at h; cases h; exact hk
      | obj kvs => unfold mapSentiment at h; rw [hg] at h; cases h; exact hk
  · unfold hasKey
    rw [mapSentiment_get_ne h hs]
    exact hk

theorem sentimentBase_defaults (kvs : Dict) :
    sentimentBase (defaultList (defaultList kvs "problems") "nudges") = sentimentBase kvs := by
  unfold sentimentBase
  rw [dictGet_defaultList_ne _ (by decide), dictGet_defaultList_ne _ (by decide)]

theorem strictRepair_obj_spec {kvs d : Dict} (h : strictRepair (.obj kvs) = .ok d) :
    dictGet d "problems" = some (listOr (dictGet kvs "problems")) ∧
    dictGet d "nudges" = some (listOr (dictGet kvs "nudges")) ∧
    dictGet d "sentiment" = some (.arr ((sentimentBase kvs).map lowerTrimJ)) ∧
    dictGet d "follow_up" = some (dictGetD kvs "follow_up" (.str "")) ∧
    dictGet d "risk" = some (dictGetD kvs "risk" (.arr [])) := by
  unfold strictRepair at h
  dsimp only at h
  cases hms : mapSentiment (sentDefault (defaultList (defaultList kvs "problems") "nudges")) with
  | error e => rw [hms] at h; cases h
  | ok d4 =>
    rw [hms] at h
    cases h
    have hd4sent : dictGet d4 "sentiment" = some (.arr ((sentimentBase kvs).map lowerTrimJ)) := by
      rw [mapSentiment_get_self (l := sentimentBase kvs) _ hms]
      rw [dictGet_sentDefault_self, sentimentBase_defaults]
    have hd4prob : dictGet d4 "problems" = some (listOr (dictGet kvs "problems")) := by
      rw [mapSentiment_get_ne hms (by decide), dictGet_sentDefault_ne _ (by decide),
        dictGet_defaultList_ne _ (by decide), dictGet_defaultList_self]
    have hd4nud : dictGet d4 "nudges" = some (listOr (dictGet kvs "nudges")) := by
      rw [mapSentiment_get_ne hms (by decide), dictGet_sentDefault_ne _ (by decide),
        dictGet_defaultList_self, dictGet_defaultList_ne _ (by decide)]
    have hd4fu : dictGet d4 "follow_up" = dictGet kvs "follow_up" := by
      rw [mapSentiment_get_ne hms (by decide), dictGet_sentDefault_ne _ (by decide),
        dictGet_defaultList_ne _ (by decide), dictGet_defaultList_ne _ (by decide)]
    have hd4risk : dictGet d4 "risk" = dictGet kvs "risk" := by
      rw [mapSentiment_get_ne hms (by decide), dictGet_sentDefault_ne _ (by decide),
        dictGet_defaultList_ne _ (by decide), dictGet_defaultList_ne _ (by decide)]
    refine ⟨?_, ?_, ?_, ?_, ?_⟩
    · rw [dictGet_presenceDefault_ne _ _ (by decide),
        dictGet_presenceDefault_ne _ _ (by decide), hd4prob]
    · rw [dictGet_presenceDefault_ne _ _ (by decide),
        dictGet_presenceDefault_ne _ _ (by decide), hd4nud]
    · rw [dictGet_presenceDefault_ne _ _ (by decide),
        dictGet_presenceDefault_ne _ _ (by decide), hd4sent]
    · rw [dictGet_presenceDefault_ne _ _ (by decide), dictGet_presenceDefault_self]
      unfold dictGetD
      rw [hd4fu]
    · rw [dictGet_presenceDefault_self]
      unfold dictGetD
      rw [dictGet_presenceDefault_ne _ _ (by decide), hd4risk]

theorem strictRepair_ok_fiveKeys {j : Json} {d : Dict}
    (h : strictRepair j = .ok d) : fiveKeys d = true := by
  cases j with
  | obj kvs =>
    obtain ⟨h1, h2, h3, h4, h5⟩ := strictRepair_obj_spec h
    unfold fiveKeys hasKey
    rw [h1, h2, h3, h4, h5]
    rfl
  | null => cases h
  | bool b => cases h
  | num n => cases h
  | str s => cases h
  | arr l => cases h

theorem fallbackRepair_obj_spec {kvs d : Dict} (h : fallbackRepair (.obj kvs) = .ok d) :
    dictGet d "problems" = some (listOr (dictGet kvs "problems")) ∧
    dictGet d "nudges" = some (listOr (dictGet kvs "nudges")) ∧
    dictGet d "sentiment" = some (.arr (sentimentBase kvs)) ∧
    dictGet d "follow_up" = some (dictGetD kvs "follow_up" (.str "")) ∧
    dictGet d "risk" = some (dictGetD kvs "risk" (.arr [])) := by
  unfold fallbackRepair at h
  dsimp only at h
  cases h
  have hd3sent : dictGet (sentDefault (defaultList (defaultList kvs "problems") "nudges"))
      "sentiment" = some (.arr (sentimentBase kvs)) := by
    rw [dictGet_sentDefault_self, sentimentBase_defaults]
  have hd3prob : dictGet (sentDefault (defaultList (defaultList kvs "problems") "nudges"))
      "problems" = some (listOr (dictGet kvs "problems")) := by
    rw [dictGet_sentDefault_ne _ (by decide),
      dictGet_defaultList_ne _ (by decide), dictGet_defaultList_self]
  have hd3nud : dictGet (sentDefault (defaultList (defaultList kvs "problems") "nudges"))
      "nudges" = some (listOr (dictGet kvs "nudges")) := by
    rw [dictGet_sentDefault_ne _ (by decide),
      dictGet_defaultList_self, dictGet_defaultList_ne _ (by decide)]
  have hd3fu : dictGet (sentDefault (defaultList (defaultList kvs "problems") "nudges"))
      "follow_up" = dictGet kvs "follow_up" := by
    rw [dictGet_sentDefault_ne _ (by decide),
      dictGet_defaultList_ne _ (by decide), dictGet_defaultList_ne _ (by decide)]
  have hd3risk : dictGet (sentDefault (defaultList (defaultList kvs "problems") "nudges"))
      "risk" = dictGet kvs "risk" := by
    rw [dictGet_sentDefault_ne _ (by decide),
      dictGet_defaultList_ne _ (by decide), dictGet_defaultList_ne _ (by decide)]
  refine ⟨?_, ?_, ?_, ?_, ?_⟩
  · rw [dictGet_presenceDefault_ne _ _ (by decide),
      dictGet_presenceDefault_ne _ _ (by decide), hd3prob]
  · rw [dictGet_presenceDefault_ne _ _ (by decide),
      dictGet_presenceDefault_ne _ _ (by decide), hd3nud]
  · rw [dictGet_presenceDefault_ne _ _ (by decide),
      dictGet_presenceDefault_ne _ _ (by decide), hd3sent]
  · rw [dictGet_presenceDefault_ne _ _ (by decide), dictGet_presenceDefault_self]
    unfold dictGetD
    rw [hd3fu]
  · rw [dictGet_presenceDefault_self]
    unfold dictGetD
    rw [dictGet_presenceDefault_ne _ _ (by decide), hd3risk]

theorem fallbackRepair_ok_fiveKeys {j : Json} {d : Dict}
    (h : fallbackRepair j = .ok d) : fiveKeys d = true := by
  cases j with
  | obj kvs =>
    obtain ⟨h1, h2, h3, h4, h5⟩ := fallbackRepair_obj_spec h
    unfold fiveKeys hasKey
    rw [h1, h2, h3, h4, h5]
    rfl
  | null => cases h
  | bool b => cases h
  | num n => cases h
  | str s => cases h
  | arr l => cases h

/-! ## Parser shape facts used for totality -/

theorem braceFrom_lbrace {d : Nat} {acc rest m : List Char}
    (h : braceFrom d acc rest = some m) : ∃ t, m = lbrace :: t := by
  induction rest generalizing d acc with
  | nil => cases h
  | cons c r ih =>
    unfold braceFrom at h
    by_cases h1 : c = rbrace
    · rw [if_pos h1] at h
      by_cases h2 : d = 0
      · rw [if_pos h2] at h
        cases h
        exact ⟨_, rfl⟩
      · rw [if_neg h2] at h
        exact ih h
    · rw [if_neg h1] at h
      by_cases h2 : c = lbrace
      · rw [if_pos h2] at h
        by_cases h3 : d = 0
        · rw [if_pos h3] at h
          exact ih h
        · rw [if_neg h3] at h
          cases h
      · rw [if_neg h2] at h
        exact ih h

theorem braceScanL_lbrace {s m : List Char} (h : braceScanL s = some m) :
    ∃ t, m = lbrace :: t := by
  induction s with
  | nil => cases h
  | cons c r ih =>
    unfold braceScanL at h
    by_cases h1 : c = lbrace
    · rw [if_pos h1] at h
      cases hb : braceFrom 0 [] r with
      | some mm =>
        rw [hb] at h
        cases h
        exact braceFrom_lbrace hb
      | none =>
        rw [hb] at h
        exact ih h
    · rw [if_neg h1] at h
      exact ih h

theorem parseCore_members_obj {n : Nat} {acc : Dict} {s r : List Char} {j : Json}
    (h : parseCore n (.members acc) s = some (j, r)) : ∃ kvs, j = .obj kvs := by
  induction n generalizing acc s r with
  | zero => cases h
  | succ n ih =>
    unfold parseCore at h
    cases hs : skipWs s with
    | nil => rw [hs] at h; cases h
    | cons c rr =>
      rw [hs] at h
      dsimp only at h
      by_cases h1 : c = '"'
      · rw [if_pos h1] at h
        cases hp : parseStringBody rr with
        | none => rw [hp] at h; cases h
        | some kr =>
          rw [hp] at h
          obtain ⟨k, r1⟩ := kr
          dsimp only at h
          cases hw : skipWs r1 with
          | nil => rw [hw] at h; cases h
          | cons c2 r2 =>
            rw [hw] at h
            dsimp only at h
            by_cases h2 : c2 = ':'
            · rw [if_pos h2] at h
              cases hv : parseCore n .value r2 with
              | none => rw [hv] at h; cases h
              | some vr =>
                rw [hv] at h
                obtain ⟨v, r3⟩ := vr
                dsimp only at h
                cases hw3 : skipWs r3 with
                | nil => rw [hw3] at h; cases h
                | cons c3 r4 =>
                  rw [hw3] at h
                  dsimp only at h
                  by_cases h3 : c3 = rbrace
                  · rw [if_pos h3] at h
                    cases h
                    exact ⟨_, rfl⟩
                  · rw [if_neg h3] at h
                    by_cases h4 : c3 = ','
                    · rw [if_pos h4] at h
                      exact ih h
                    · rw [if_neg h4] at h
                      cases h
            · rw [if_neg h2] at h
              cases h
      · rw [if_neg h1] at h
        cases h

theorem parseCore_value_lbrace_obj {n : Nat} {t r : List Char} {j : Json}
    (h : parseCore n .value (lbrace :: t) = some (j, r)) : ∃ kvs, j = .obj kvs := by
  cases n with
  | zero => cases h
  | succ n =>
    unfold parseCore at h
    rw [show skipWs (lbrace :: t) = lbrace :: t from by
      unfold skipWs; rw [if_neg (by decide)]] at h
    dsimp only at h
    rw [if_pos rfl] at h
    cases hw : skipWs t with
    | nil => rw [hw] at h; cases h
    | cons c2 r2 =>
      rw [hw] at h
      dsimp only at h
      by_cases h2 : c2 = rbrace
      · rw [if_pos h2] at h
        cases h
        exact ⟨[], rfl⟩
      · rw [if_neg h2] at h
        exact parseCore_members_obj h

theorem loads_lbrace_obj {t : List Char} {j : Json}
    (h : loads (String.mk (lbrace :: t)) = some j) : ∃ kvs, j = .obj kvs := by
  unfold loads at h
  cases hp : parseCore ((String.mk (lbrace :: t)).data.length + 1) .value
      (String.mk (lbrace :: t)).data with
  | none => rw [hp] at h; cases h
  | some jr =>
    obtain ⟨j2, r⟩ := jr
    rw [hp] at h
    dsimp only at h
    have hp2 : parseCore ((lbrace :: t).length + 1) .value (lbrace :: t) = some (j2, r) := hp
    by_cases hw : skipWs r = []
    · rw [if_pos hw] at h
      cases h
      exact parseCore_value_lbrace_obj hp2
    · rw [if_neg hw] at h
      cases h

/-- Totality with shape guarantee: normalization never lets an exception
escape and always yields a dict carrying all five fields. -/
theorem normalizeText_total (raw : String) :
    ∃ d, normalizeText raw = .ok d ∧ fiveKeys d = true := by
  unfold normalizeText
  dsimp only
  cases hl : loads (stripFence (pyStrip raw)) with
  | some j =>
    dsimp only
    cases hs : strictRepair j with
    | ok d => exact ⟨d, rfl, strictRepair_ok_fiveKeys hs⟩
    | error e => exact ⟨errorResult, rfl, by rfl⟩
  | none =>
    dsimp only
    cases hb : braceScanL (stripFence (pyStrip raw)).data with
    | none => exact ⟨degradedResult, rfl, by rfl⟩
    | some m =>
      dsimp only
      cases hm : loads (String.mk m) with
      | none => exact ⟨degradedResult, rfl, by rfl⟩
      | some j2 =>
        obtain ⟨t, ht⟩ := braceScanL_lbrace hb
        subst ht
        obtain ⟨kvs, hk⟩ := loads_lbrace_obj hm
        subst hk
        cases hf : fallbackRepair (.obj kvs) with
        | error e =>
          unfold fallbackRepair at hf
          dsimp only at hf
          cases hf
        | ok d => exact ⟨d, hf, fallbackRepair_ok_fiveKeys hf⟩

/-- Characterization of one message-handling step: either the message is
an accepted patient transcript turn, and the step is determined by the
analysis result, or it is not, and the carried guidance is untouched and
no analysis happens. -/
theorem handleMessage_spec (prev : Json) (m : Option Json) (call : Except ApiErr String) :
    (∃ l, acceptedPatient m = some l ∧ l.isEmpty = false ∧
      handleMessage prev m call =
        (match analyze_conversation l prev call with
         | .ok d =>
           ⟨dictGetD d "nudges" (.arr []),
            [.analysisMsg (dictGetD d "problems" (.arr []))
               (dictGetD d "nudges" (.arr []))
               (dictGetD d "sentiment" (.arr [.str "neutral"]))],
            [(l, prev)]⟩
         | .error e => ⟨prev, [.excError e], [(l, prev)]⟩)) ∨
    (acceptedPatient m = none ∧ (handleMessage prev m call).nudges = prev ∧
      (handleMessage prev m call).invs = []) := by
  cases m with
  | none => exact Or.inr ⟨rfl, rfl, rfl⟩
  | some j =>
    cases j with
    | null => exact Or.inr ⟨rfl, rfl, rfl⟩
    | bool b => exact Or.inr ⟨rfl, rfl, rfl⟩
    | num n => exact Or.inr ⟨rfl, rfl, rfl⟩
    | str s => exact Or.inr ⟨rfl, rfl, rfl⟩
    | arr l0 => exact Or.inr ⟨rfl, rfl, rfl⟩
    | obj kvs =>
      unfold acceptedPatient handleMessage handleTranscript
      try dsimp only
      cases ht : dictGet kvs "type" with
      | none => exact Or.inr ⟨rfl, rfl, rfl⟩
      | some tv =>
        cases tv with
        | null => exact Or.inr ⟨rfl, rfl, rfl⟩
        | bool b => exact Or.inr ⟨rfl, rfl, rfl⟩
        | num n => exact Or.inr ⟨rfl, rfl, rfl⟩
        | arr l0 => exact Or.inr ⟨rfl, rfl, rfl⟩
        | obj kvs2 => exact Or.inr ⟨rfl, rfl, rfl⟩
        | str t =>
          try dsimp only
          by_cases h1 : t = "transcript"
          · rw [if_pos h1, if_pos h1]
            cases htr : dictGetD kvs "transcripts" (.arr []) with
            | null => exact Or.inr ⟨rfl, rfl, rfl⟩
            | bool b =>
              by_cases hpt : pyTruthy (.bool b) <;>
                exact Or.inr ⟨rfl, by simp [hpt], by simp [hpt]⟩
            | num n =>
              by_cases hpt : pyTruthy (.num n) <;>
                exact Or.inr ⟨rfl, by simp [hpt], by simp [hpt]⟩
            | str s =>
              by_cases hpt : pyTruthy (.str s) <;>
                exact Or.inr ⟨rfl, by simp [hpt], by simp [hpt]⟩
            | obj kvs3 =>
              by_cases hpt : pyTruthy (.obj kvs3) <;>
                exact Or.inr ⟨rfl, by simp [hpt], by simp [hpt]⟩
            | arr l =>
              try dsimp only
              by_cases hpt : pyTruthy (.arr l)
              · rw [if_pos hpt, if_pos hpt]
                try dsimp only
                cases hlast : l.getLast? with
                | none => exact Or.inr ⟨rfl, rfl, rfl⟩
                | some last =>
                  cases last with
                  | null => exact Or.inr ⟨rfl, rfl, rfl⟩
                  | bool b2 =>
                    by_cases htv : pyTruthy (.bool b2) <;>
                      exact Or.inr ⟨rfl, by simp [htv], by simp [htv]⟩
                  | num n2 =>
                    by_cases htv : pyTruthy (.num n2) <;>
                      exact Or.inr ⟨rfl, by simp [htv], by simp [htv]⟩
                  | str s2 =>
                    by_cases htv : pyTruthy (.str s2) <;>
                      exact Or.inr ⟨rfl, by simp [htv], by simp [htv]⟩
                  | arr l2 =>
                    by_cases htv : pyTruthy (.arr l2) <;>
                      exact Or.inr ⟨rfl, by simp [htv], by simp [htv]⟩
                  | obj turnKvs =>
                    try dsimp only
                    by_cases htv : pyTruthy (.obj turnKvs)
                    · rw [if_pos htv, if_pos htv]
                      try dsimp only
                      cases hsp : dictGetD turnKvs "speaker" (.str "") with
                      | null => exact Or.inr ⟨rfl, rfl, rfl⟩
                      | bool b3 => exact Or.inr ⟨rfl, rfl, rfl⟩
                      | num n3 => exact Or.inr ⟨rfl, rfl, rfl⟩
                      | arr l3 => exact Or.inr ⟨rfl, rfl, rfl⟩
                      | obj kvs4 => exact Or.inr ⟨rfl, rfl, rfl⟩
                      | str sp =>
                        try dsimp only
                        by_cases hpat : pyLower sp = "patient"
                        · by_cases htxt : pyTruthy (dictGetD turnKvs "text" (.str ""))
                          · refine Or.inl ⟨l, ?_, ?_, ?_⟩
                            · rw [if_pos ⟨hpat, htxt⟩]
                            · simpa [pyTruthy] using hpt
                            · rw [if_pos ⟨Or.inl hpat, htxt⟩, if_pos hpat]
                          · refine Or.inr ⟨?_, ?_, ?_⟩
                            · rw [if_neg (fun hc => htxt hc.2)]
                            · rw [if_neg (fun hc => htxt hc.2)]
                            · rw [if_neg (fun hc => htxt hc.2)]
                        · by_cases hcouns : pyLower sp = "counselor"
                          · by_cases htxt : pyTruthy (dictGetD turnKvs "text" (.str ""))
                            · refine Or.inr ⟨?_, ?_, ?_⟩
                              · rw [if_neg (fun hc => hpat hc.1)]
                              · rw [if_pos ⟨Or.inr hcouns, htxt⟩, if_neg hpat]
                              · rw [if_pos ⟨Or.inr hcouns, htxt⟩, if_neg hpat]
                            · refine Or.inr ⟨?_, ?_, ?_⟩
                              · rw [if_neg (fun hc => htxt hc.2)]
                              · rw [if_neg (fun hc => htxt hc.2)]
                              · rw [if_neg (fun hc => htxt hc.2)]
                          · refine Or.inr ⟨?_, ?_, ?_⟩
                            · rw [if_neg (fun hc => hpat hc.1)]
                            · rw [if_neg (fun hc =>
                                hc.1.elim (fun hh => hpat hh) (fun hh => hcouns hh))]
                            · rw [if_neg (fun hc =>
                                hc.1.elim (fun hh => hpat hh) (fun hh => hcouns hh))]
                    · rw [if_neg htv, if_neg htv]
                      exact Or.inr ⟨rfl, rfl, rfl⟩
              · rw [if_neg hpt, if_neg hpt]
                exact Or.inr ⟨rfl, rfl, rfl⟩
          · rw [if_neg h1, if_neg h1]
            by_cases h2 : t = "ping"
            · rw [if_pos h2]
              exact Or.inr ⟨rfl, rfl, rfl⟩
            · rw [if_neg h2]
              exact Or.inr ⟨rfl, rfl, rfl⟩

/-- The analysis result does not depend on the carried guidance argument
(it only feeds the prompt, and the analyzer's reply is the oracle). -/
theorem analyze_conversation_prev_irrel (l : List Json) (p p' : Json)
    (c : Except ApiErr String) :
    analyze_conversation l p c = analyze_conversation l p' c := rfl

/-- The carried guidance after any trace is the claim-side
`guidanceSpec` value, relative to the starting guidance. -/
theorem handleMessages_nudges (steps : List (Option Json × Except ApiErr String))
    (prev : Json) :
    (handleMessages prev steps).nudges =
      match (steps.filterMap stepAnalysis).getLast? with
      | some d => dictGetD d "nudges" (.arr [])
      | none => prev := by
  induction steps generalizing prev with
  | nil => rfl
  | cons s rest ih =>
    obtain ⟨m, c⟩ := s
    show (handleMessages (handleMessage prev m c).nudges rest).nudges = _
    rw [List.filterMap_cons]
    rcases handleMessage_spec prev m c with ⟨l, hacc, _, heq⟩ | ⟨hacc, hn, _⟩
    · have hstep : stepAnalysis (m, c) = (analyze_conversation l (.arr []) c).toOption := by
        unfold stepAnalysis
        dsimp only
        rw [hacc]
      rw [hstep]
      cases han : analyze_conversation l (.arr []) c with
      | ok d =>
        have hprev : analyze_conversation l prev c = .ok d := han
        rw [heq, hprev]
        dsimp only [Except.toOption]
        rw [ih]
        rw [List.getLast?_cons]
        cases hrest : (rest.filterMap stepAnalysis).getLast? with
        | some d2 => simp
        | none => simp
      | error e =>
        have hprev : analyze_conversation l prev c = .error e := han
        rw [heq, hprev]
        dsimp only [Except.toOption]
        exact ih prev
    · have hstep : stepAnalysis (m, c) = none := by
        unfold stepAnalysis
        dsimp only
        rw [hacc]
      rw [hstep, hn]
      exact ih prev

/-- Trace concatenation: the loop processes messages in order, threading
guidance, and concatenates replies and invocations. -/
theorem handleMessages_append (prev : Json)
    (xs ys : List (Option Json × Except ApiErr String)) :
    handleMessages prev (xs ++ ys) =
      ⟨(handleMessages (handleMessages prev xs).nudges ys).nudges,
       (handleMessages prev xs).outs ++ (handleMessages (handleMessages prev xs).nudges ys).outs,
       (handleMessages prev xs).invs ++ (handleMessages (handleMessages prev xs).nudges ys).invs⟩ := by
  induction xs generalizing prev with
  | nil => simp [handleMessages]
  | cons s rest ih =>
    obtain ⟨m, c⟩ := s
    dsimp only [List.cons_append, handleMessages]
    rw [ih]
    simp [List.append_assoc]

/-! ## Inversion of the canonical encoder (round-trip machinery) -/

theorem skipWs_cons_nws {c : Char} (h : isJWs c = false) (r : List Char) :
    skipWs (c :: r) = c :: r := by
  simp [skipWs, h]

theorem hexVal_hexDig : ∀ n < 16, hexVal (hexDig n) = some n := by decide

theorem parseStringBody_escList (cs rest : List Char) :
    parseStringBody (escList cs ++ '"' :: rest) = some (cs, rest) := by
  induction cs with
  | nil =>
    show parseStringBody ('"' :: rest) = some ([], rest)
    unfold parseStringBody
    rw [if_pos rfl]
  | cons c cs ih =>
    show parseStringBody ((escChar c ++ escList cs) ++ '"' :: rest) = _
    rw [List.append_assoc]
    unfold escChar
    by_cases h1 : c = '"'
    · rw [if_pos h1]
      subst h1
      show parseStringBody ('\\' :: '"' :: (escList cs ++ '"' :: rest)) = _
      unfold parseStringBody
      rw [if_neg (by decide), if_pos rfl]
      try dsimp only
      rw [if_neg (by decide)]
      rw [show escMap '"' = some '"' from rfl]
      try dsimp only
      rw [ih]
      rfl
    · rw [if_neg h1]
      by_cases h2 : c = '\\'
      · rw [if_pos h2]
        subst h2
        show parseStringBody ('\\' :: '\\' :: (escList cs ++ '"' :: rest)) = _
        unfold parseStringBody
        rw [if_neg (by decide), if_pos rfl]
        try dsimp only
        rw [if_neg (by decide)]
        rw [show escMap '\\' = some '\\' from rfl]
        try dsimp only
        rw [ih]
        rfl
      · rw [if_neg h2]
        by_cases h3 : c.toNat < 32
        · rw [if_pos h3]
          show parseStringBody ('\\' :: 'u' :: '0' :: '0' :: hexDig (c.toNat / 16) ::
            hexDig (c.toNat % 16) :: (escList cs ++ '"' :: rest)) = _
          unfold parseStringBody
          rw [if_neg (by decide), if_pos rfl]
          try dsimp only
          rw [if_pos rfl]
          try dsimp only
          rw [show hexVal '0' = some 0 from rfl,
            hexVal_hexDig _ (by omega), hexVal_hexDig _ (by omega)]
          try dsimp only
          rw [ih]
          have hc : ((0 * 16 + 0) * 16 + c.toNat / 16) * 16 + c.toNat % 16 = c.toNat := by
            omega
          rw [hc, Char.ofNat_toNat]
          rfl
        · rw [if_neg h3]
          show parseStringBody (c :: (escList cs ++ '"' :: rest)) = _
          unfold parseStringBody
          rw [if_neg h1, if_neg h2, if_neg h3, ih]
          rfl

theorem encStrL_append (s : String) (rest : List Char) :
    encStrL s ++ rest = '"' :: (escList s.data ++ '"' :: rest) := by
  simp [encStrL]

/-- Parsing a canonical string literal as a JSON value. -/
theorem parseCore_strVal (n : Nat) (s : String) (rest : List Char) :
    parseCore (n + 1) .value (encStrL s ++ rest) = some (.str s, rest) := by
  rw [encStrL_append]
  unfold parseCore
  rw [skipWs_cons_nws (by decide)]
  try dsimp only
  rw [if_neg (by decide), if_neg (by decide), if_pos rfl, parseStringBody_escList]

theorem encTail_append (l : List String) (t rest : List Char) :
    encTail l t ++ rest = encTail l (t ++ rest) := by
  induction l generalizing t with
  | nil => rfl
  | cons s l' ih =>
    show (',' :: (encStrL s ++ encTail l' t)) ++ rest = ',' :: (encStrL s ++ encTail l' (t ++ rest))
    simp [List.append_assoc, ih]

theorem parseCore_elems (l : List String) (s0 : String) (acc : List Json) (n : Nat)
    (rest : List Char) :
    parseCore (n + 2 * l.length + 2) (.elems acc) (encStrL s0 ++ encTail l rest) =
      some (.arr (acc ++ .str s0 :: l.map .str), rest) := by
  induction l generalizing s0 acc n rest with
  | nil =>
    show parseCore ((n + 1) + 1) (.elems acc) (encStrL s0 ++ ']' :: rest) = _
    unfold parseCore
    rw [parseCore_strVal]
    dsimp only
    rw [skipWs_cons_nws (by decide)]
    dsimp only
    rw [if_pos rfl]
    rfl
  | cons t l' ih =>
    have hf : n + 2 * (t :: l').length + 2 = (n + 2 * l'.length + 3) + 1 := by
      simp [List.length_cons]
      ring
    rw [hf]
    show parseCore _ (.elems acc) (encStrL s0 ++ ',' :: (encStrL t ++ encTail l' rest)) = _
    unfold parseCore
    rw [show n + 2 * l'.length + 3 = (n + 2 * l'.length + 2) + 1 from by ring]
    rw [parseCore_strVal]
    dsimp only
    rw [skipWs_cons_nws (by decide)]
    dsimp only
    rw [if_neg (by decide), if_pos rfl]
    rw [show (n + 2 * l'.length + 2) + 1 = (n + 1) + 2 * l'.length + 2 from by ring]
    rw [ih]
    simp

theorem parseCore_arrVal (l : List String) (n : Nat) (rest : List Char) :
    parseCore (n + 2 * l.length + 3) .value (encArrL l ++ rest) =
      some (.arr (l.map .str), rest) := by
  cases l with
  | nil =>
    show parseCore ((n + 2) + 1) .value ('[' :: ']' :: rest) = _
    unfold parseCore
    rw [skipWs_cons_nws (by decide)]
    dsimp only
    rw [if_neg (by decide), if_pos rfl]
    rw [skipWs_cons_nws (by decide)]
    dsimp only
    rw [if_pos rfl]
    rfl
  | cons s0 l' =>
    have harg : encArrL (s0 :: l') ++ rest = '[' :: (encStrL s0 ++ encTail l' rest) := by
      show ('[' :: (encStrL s0 ++ encTail l' [])) ++ rest = _
      simp [List.append_assoc, encTail_append]
    have hf : n + 2 * (s0 :: l').length + 3 = (n + 2 * l'.length + 4) + 1 := by
      simp [List.length_cons]
      ring
    rw [harg, hf]
    unfold parseCore
    rw [skipWs_cons_nws (by decide)]
    dsimp only
    rw [if_neg (by decide), if_pos rfl]
    rw [encStrL_append, skipWs_cons_nws (by decide)]
    dsimp only
    rw [if_neg (by decide)]
    rw [← encStrL_append]
    rw [show n + 2 * l'.length + 4 = (n + 2) + 2 * l'.length + 2 from by ring]
    rw [parseCore_elems]
    simp

theorem parseCore_member_arr_cont (k : String) (l : List String) (n : Nat) (acc : Dict)
    (restm : List Char) :
    parseCore ((n + 2 * l.length + 4) + 1) (.members acc)
      (encStrL k ++ ':' :: (encArrL l ++ ',' :: restm)) =
      parseCore (n + 2 * l.length + 4) (.members (dictSet acc k (.arr (l.map .str)))) restm := by
  conv_lhs => unfold parseCore
  rw [encStrL_append, skipWs_cons_nws (by decide)]
  dsimp only
  rw [if_pos rfl, parseStringBody_escList]
  dsimp only
  rw [skipWs_cons_nws (by decide)]
  dsimp only
  rw [if_pos rfl]
  rw [show n + 2 * l.length + 4 = (n + 1) + 2 * l.length + 3 from by ring]
  rw [parseCore_arrVal]
  dsimp only
  rw [skipWs_cons_nws (by decide)]
  dsimp only
  rw [if_neg (by decide), if_pos rfl]

theorem parseCore_member_arr_last (k : String) (l : List String) (n : Nat) (acc : Dict)
    (rest : List Char) :
    parseCore ((n + 2 * l.length + 4) + 1) (.members acc)
      (encStrL k ++ ':' :: (encArrL l ++ rbrace :: rest)) =
      some (.obj (dictSet acc k (.arr (l.map .str))), rest) := by
  conv_lhs => unfold parseCore
  rw [encStrL_append, skipWs_cons_nws (by decide)]
  dsimp only
  rw [if_pos rfl, parseStringBody_escList]
  dsimp only
  rw [skipWs_cons_nws (by decide)]
  dsimp only
  rw [if_pos rfl]
  rw [show n + 2 * l.length + 4 = (n + 1) + 2 * l.length + 3 from by ring]
  rw [parseCore_arrVal]
  dsimp only
  rw [skipWs_cons_nws (by decide)]
  dsimp only
  rw [if_pos rfl]

theorem parseCore_member_str_cont (k fu : String) (n : Nat) (acc : Dict)
    (restm : List Char) :
    parseCore ((n + 2) + 1) (.members acc) (encStrL k ++ ':' :: (encStrL fu ++ ',' :: restm)) =
      parseCore (n + 2) (.members (dictSet acc k (.str fu))) restm := by
  conv_lhs => unfold parseCore
  rw [encStrL_append, skipWs_cons_nws (by decide)]
  dsimp only
  rw [if_pos rfl, parseStringBody_escList]
  dsimp only
  rw [skipWs_cons_nws (by decide)]
  dsimp only
  rw [if_pos rfl]
  rw [show n + 2 = (n + 1) + 1 from by ring]
  rw [parseCore_strVal]
  dsimp only
  rw [skipWs_cons_nws (by decide)]
  dsimp only
  rw [if_neg (by decide), if_pos rfl]

theorem encStrL_len (s : String) : 2 ≤ (encStrL s).length := by
  simp [encStrL]

theorem encTail_len (l : List String) (rest : List Char) :
    2 * l.length + 1 + rest.length ≤ (encTail l rest).length := by
  induction l generalizing rest with
  | nil =>
    simp only [encTail, List.length_cons, List.length_nil]
    omega
  | cons s l' ih =>
    show _ ≤ (',' :: (encStrL s ++ encTail l' rest)).length
    have h1 := encStrL_len s
    have h2 := ih rest
    simp only [List.length_cons, List.length_append]
    omega

theorem encArrL_len (l : List String) : 2 * l.length + 2 ≤ (encArrL l).length := by
  cases l with
  | nil => simp [encArrL]
  | cons s l' =>
    show _ ≤ ('[' :: (encStrL s ++ encTail l' [])).length
    have h1 := encStrL_len s
    have h2 := encTail_len l' []
    simp only [List.length_cons, List.length_append, List.length_nil] at *
    omega

theorem encodeResultL_len (r : AnalysisResult) :
    2 * r.problems.length + 2 * r.nudges.length + 2 * r.sentiment.length +
      2 * r.risk.length + 20 ≤ (encodeResultL r).length := by
  unfold encodeResultL
  have h1 := encArrL_len r.problems
  have h2 := encArrL_len r.nudges
  have h3 := encArrL_len r.sentiment
  have h4 := encArrL_len r.risk
  have h5 := encStrL_len r.follow_up
  have k1 := encStrL_len "problems"
  have k2 := encStrL_len "nudges"
  have k3 := encStrL_len "sentiment"
  have k4 := encStrL_len "follow_up"
  have k5 := encStrL_len "risk"
  simp only [List.length_cons, List.length_append]
  omega

/-- Parsing inverts the canonical encoding: `json.loads` of the encoding
of a fully-populated, correctly-typed AnalysisResult recovers exactly its
dict, in encoding order. -/
theorem loads_encodeResult (r : AnalysisResult) :
    loads (encodeResult r) = some (.obj (toDict r)) := by
  have hlen := encodeResultL_len r
  have hparse : parseCore ((encodeResultL r).length + 1) .value (encodeResultL r) =
      some (.obj (toDict r), []) := by
    show parseCore ((encodeResultL r).length + 1) .value
      (lbrace :: (encStrL "problems" ++ ':' :: (encArrL r.problems ++ ',' ::
        (encStrL "nudges" ++ ':' :: (encArrL r.nudges ++ ',' ::
        (encStrL "sentiment" ++ ':' :: (encArrL r.sentiment ++ ',' ::
        (encStrL "follow_up" ++ ':' :: (encStrL r.follow_up ++ ',' ::
        (encStrL "risk" ++ ':' :: (encArrL r.risk ++ [rbrace]))))))))))) = _
    unfold parseCore
    rw [skipWs_cons_nws (by decide)]
    dsimp only
    rw [if_pos rfl]
    rw [encStrL_append "problems", skipWs_cons_nws (by decide)]
    dsimp only
    rw [if_neg (by decide)]
    rw [← encStrL_append "problems"]
    obtain ⟨n0, hn0⟩ := Nat.le.dest hlen
    have h1 : (encodeResultL r).length =
        ((2 * r.nudges.length + 2 * r.sentiment.length + 2 * r.risk.length + 15 + n0) +
          2 * r.problems.length + 4) + 1 := by omega
    rw [h1, parseCore_member_arr_cont]
    have h2 : 2 * r.nudges.length + 2 * r.sentiment.length + 2 * r.risk.length + 15 + n0 +
        2 * r.problems.length + 4 =
        ((2 * r.problems.length + 2 * r.sentiment.length + 2 * r.risk.length + 14 + n0) +
          2 * r.nudges.length + 4) + 1 := by omega
    rw [h2, parseCore_member_arr_cont]
    have h3 : 2 * r.problems.length + 2 * r.sentiment.length + 2 * r.risk.length + 14 + n0 +
        2 * r.nudges.length + 4 =
        ((2 * r.problems.length + 2 * r.nudges.length + 2 * r.risk.length + 13 + n0) +
          2 * r.sentiment.length + 4) + 1 := by omega
    rw [h3, parseCore_member_arr_cont]
    have h4 : 2 * r.problems.length + 2 * r.nudges.length + 2 * r.risk.length + 13 + n0 +
        2 * r.sentiment.length + 4 =
        ((2 * r.problems.length + 2 * r.nudges.length + 2 * r.sentiment.length +
          2 * r.risk.length + 14 + n0) + 2) + 1 := by omega
    rw [h4, parseCore_member_str_cont]
    have h5 : 2 * r.problems.length + 2 * r.nudges.length + 2 * r.sentiment.length +
        2 * r.risk.length + 14 + n0 + 2 =
        ((2 * r.problems.length + 2 * r.nudges.length + 2 * r.sentiment.length + 11 + n0) +
          2 * r.risk.length + 4) + 1 := by omega
    rw [h5, parseCore_member_arr_last]
    rfl
  unfold loads
  show (match parseCore ((encodeResultL r).length + 1) .value (encodeResultL r) with
    | some (j, rest) => if skipWs rest = [] then some j else none
    | none => none) = _
  rw [hparse]
  rfl

theorem isPrefixOf_append (sep b : List Char) : sep.isPrefixOf (sep ++ b) = true := by
  simp only [List.isPrefixOf_iff_prefix]
  exact List.prefix_append sep b

theorem isPrefixOf_drop {q l : List Char} (h : q.isPrefixOf l = true) :
    l = q ++ l.drop q.length := by
  simp only [List.isPrefixOf_iff_prefix] at h
  obtain ⟨t, ht⟩ := h
  subst ht
  simp

theorem splitFirstL_of_decomp {sep : List Char} (hsep : sep ≠ []) (a b : List Char) :
    (splitFirstL sep (a ++ sep ++ b)).isSome = true := by
  induction a with
  | nil =>
    obtain ⟨c, t, hct⟩ : ∃ c t, sep = c :: t := by
      cases sep with
      | nil => exact absurd rfl hsep
      | cons c t => exact ⟨c, t, rfl⟩
    subst hct
    have harg : ([] : List Char) ++ (c :: t) ++ b = c :: (t ++ b) := by simp
    rw [harg]
    unfold splitFirstL
    have hpre : (c :: t).isPrefixOf (c :: (t ++ b)) = true := by
      have := isPrefixOf_append (c :: t) b
      simpa using this
    rw [if_pos hpre]
    rfl
  | cons x a' ih =>
    have harg : (x :: a') ++ sep ++ b = x :: (a' ++ sep ++ b) := by simp
    rw [harg]
    unfold splitFirstL
    by_cases hp : sep.isPrefixOf (x :: (a' ++ sep ++ b))
    · rw [if_pos hp]
      rfl
    · rw [if_neg hp]
      simpa using ih

theorem splitFirstL_decomp {sep s : List Char} {p : List Char × List Char}
    (h : splitFirstL sep s = some p) : s = p.1 ++ sep ++ p.2 := by
  induction s generalizing p with
  | nil => cases h
  | cons c rest ih =>
    unfold splitFirstL at h
    by_cases hp : sep.isPrefixOf (c :: rest)
    · rw [if_pos hp] at h
      cases h
      have := isPrefixOf_drop hp
      simpa using this
    · rw [if_neg hp] at h
      cases hsp : splitFirstL sep rest with
      | none => rw [hsp] at h; cases h
      | some q =>
        rw [hsp] at h
        cases h
        have := ih hsp
        simp [this, List.append_assoc]

theorem hasSubL_json_of_fence {cs : List Char}
    (h : hasSubL "```".data cs = false) : hasSubL "```json".data cs = false := by
  by_contra hj
  have hsome : (splitFirstL "```json".data cs).isSome = true := by
    unfold hasSubL at hj
    cases hx : (splitFirstL "```json".data cs).isSome
    · exact absurd hx hj
    · rfl
  obtain ⟨p, hp⟩ := Option.isSome_iff_exists.mp hsome
  have hdec := splitFirstL_decomp hp
  have hcs : cs = p.1 ++ "```".data ++ ("json".data ++ p.2) := by
    rw [hdec]
    simp [List.append_assoc]
  have h2 : (splitFirstL "```".data cs).isSome = true := by
    rw [hcs]
    exact splitFirstL_of_decomp (by decide) p.1 ("json".data ++ p.2)
  unfold hasSubL at h
  rw [h2] at h
  cases h

theorem stripFence_id {s : String} (h : hasSubL "```".data s.data = false) :
    stripFence s = s := by
  unfold stripFence
  rw [if_neg (by simp [hasSubL_json_of_fence h]), if_neg (by simp [h])]

theorem pyStripL_brace (X : List Char) :
    pyStripL (lbrace :: (X ++ [rbrace])) = lbrace :: (X ++ [rbrace]) := by
  unfold pyStripL
  rw [List.dropWhile_cons_of_neg (by decide)]
  rw [show (lbrace :: (X ++ [rbrace])).reverse = rbrace :: (X.reverse ++ [lbrace]) from by
    simp]
  rw [List.dropWhile_cons_of_neg (by decide)]
  simp

theorem pyStrip_encodeResult (r : AnalysisResult) :
    pyStrip (encodeResult r) = encodeResult r := by
  have hshape : encodeResultL r =
      lbrace :: ((encStrL "problems" ++ ':' :: (encArrL r.problems ++ ',' ::
        (encStrL "nudges" ++ ':' :: (encArrL r.nudges ++ ',' ::
        (encStrL "sentiment" ++ ':' :: (encArrL r.sentiment ++ ',' ::
        (encStrL "follow_up" ++ ':' :: (encStrL r.follow_up ++ ',' ::
        (encStrL "risk" ++ ':' :: encArrL r.risk))))))))) ++ [rbrace]) := by
    simp [encodeResultL, List.append_assoc]
  show String.mk (pyStripL (encodeResultL r)) = String.mk (encodeResultL r)
  rw [hshape, pyStripL_brace]

/-- The strict-path repair leaves a fully-populated, correctly-typed dict
unchanged, provided its sentiment entries are fixed points of
lower-casing and trimming. -/
theorem strictRepair_toDict (r : AnalysisResult)
    (hsent : ∀ s ∈ r.sentiment, pyStrip (pyLower s) = s) :
    strictRepair (.obj (toDict r)) = .ok (toDict r) := by
  unfold strictRepair
  dsimp only
  have e1 : sentDefault (defaultList (defaultList (toDict r) "problems") "nudges") =
      toDict r := rfl
  rw [e1]
  have e2 : mapSentiment (toDict r) = .ok (toDict r) := by
    unfold mapSentiment
    rw [show dictGet (toDict r) "sentiment" = some (.arr (r.sentiment.map .str)) from rfl]
    cases hs : r.sentiment with
    | nil => rfl
    | cons a t =>
      dsimp only [List.map_cons]
      rw [if_pos (by simp [isStrVal, List.all_map])]
      have hfixmem : ∀ x ∈ a :: t, pyStrip (pyLower x) = x := by
        intro x hx
        apply hsent
        rw [hs]
        exact hx
      have hmap : lowerTrimJ (Json.str a) :: (t.map Json.str).map lowerTrimJ =
          Json.str a :: t.map Json.str := by
        have hhead : lowerTrimJ (Json.str a) = Json.str a := by
          simp [lowerTrimJ, hfixmem a (by simp)]
        have htail : (t.map Json.str).map lowerTrimJ = t.map Json.str := by
          rw [List.map_map]
          apply List.map_congr_left
          intro x hx
          simp [Function.comp, lowerTrimJ, hfixmem x (by simp [hx])]
        rw [hhead, htail]
      rw [hmap]
      have hset : dictSet (toDict r) "sentiment" (.arr (Json.str a :: t.map Json.str)) =
          toDict r := by
        apply dictSet_same
        rw [show dictGet (toDict r) "sentiment" = some (.arr (r.sentiment.map .str)) from rfl]
        rw [hs]
        rfl
      rw [hset]
  rw [e2]
  rfl

/-! ## Claim theorems -/

/-- C1: the result normalizer is total: for every input string returned by
the analyzer (empty, non-JSON, truncated JSON, wrong-typed fields, ...),
normalization returns a dict carrying all five fields (problems, nudges,
sentiment, follow_up, risk) and never lets an exception escape its
boundary (the result is always `Except.ok`). -/
theorem C1_normalizer_total (raw : String) :
    ∃ d, normalizeText raw = .ok d ∧ fiveKeys d = true :=
  normalizeText_total raw

/-- C2: the carried guidance supplied as context to each analyzed patient
turn equals exactly the `nudges` field of the result produced for the
most recent prior completed patient-turn analysis in the same session
(empty if there is none), and no message other than an accepted patient
transcript turn mutates the carried guidance. -/
theorem C2_carried_guidance_invariant :
    (∀ steps : List (Option Json × Except ApiErr String),
      (handleMessages (.arr []) steps).nudges = guidanceSpec steps) ∧
    (∀ (prev : Json) (m : Option Json) (c : Except ApiErr String),
      acceptedPatient m = none → (handleMessage prev m c).nudges = prev) ∧
    (∀ (steps : List (Option Json × Except ApiErr String))
        (s : Option Json × Except ApiErr String),
      (handleMessages (.arr []) (steps ++ [s])).invs =
        (handleMessages (.arr []) steps).invs ++
          (match acceptedPatient s.1 with
           | some l => [(l, guidanceSpec steps)]
           | none => [])) := by
  refine ⟨?_, ?_, ?_⟩
  · intro steps
    rw [handleMessages_nudges]
    rfl
  · intro prev m c h
    rcases handleMessage_spec prev m c with ⟨l, hacc, _, _⟩ | ⟨_, hn, _⟩
    · rw [h] at hacc
      cases hacc
    · exact hn
  · intro steps s
    obtain ⟨m, c⟩ := s
    rw [handleMessages_append]
    have hX : (handleMessages (.arr []) steps).nudges = guidanceSpec steps := by
      rw [handleMessages_nudges]
      rfl
    show (handleMessages (.arr []) steps).invs ++
        ((handleMessage (handleMessages (.arr []) steps).nudges m c).invs ++ []) = _
    rw [List.append_nil]
    congr 1
    rcases handleMessage_spec ((handleMessages (.arr []) steps).nudges) m c with
      ⟨l, hacc, _, heq⟩ | ⟨hacc, _, hi⟩
    · rw [hacc, heq]
      cases han : analyze_conversation l (handleMessages (.arr []) steps).nudges c with
      | ok d =>
        dsimp only
        rw [hX]
      | error e =>
        dsimp only
        rw [hX]
    · rw [hacc, hi]

/-- C2 witness: concrete trace (a ping, then an accepted patient turn with
an unparseable analyzer reply). -/
theorem C2_carried_guidance_invariant_witness :
    (handleMessages (.arr [])
      [(some (.obj [("type", .str "ping")]), .ok "x"),
       (some (.obj [("type", .str "transcript"),
         ("transcripts", .arr [.obj [("speaker", .str "patient"), ("text", .str "hi")]])]),
        .ok "not json")]).nudges =
      guidanceSpec
        [(some (.obj [("type", .str "ping")]), .ok "x"),
         (some (.obj [("type", .str "transcript"),
           ("transcripts", .arr [.obj [("speaker", .str "patient"), ("text", .str "hi")]])]),
          .ok "not json")] ∧
    (handleMessage (.arr []) (some (.obj [("type", .str "ping")])) (.ok "x")).nudges =
      .arr [] :=
  ⟨C2_carried_guidance_invariant.1 _,
   C2_carried_guidance_invariant.2.1 (.arr []) _ _ (by rfl)⟩

/-- C3: when both the strict parse (after fence stripping) and the
brace-scan fallback fail, normalization returns exactly the fixed
degraded result, and an accepted patient turn is still answered with an
`analysis`-type message carrying that degraded content. -/
theorem C3_degraded_on_double_failure (raw : String)
    (h1 : loads (stripFence (pyStrip raw)) = none)
    (h2 : fallbackFails (stripFence (pyStrip raw)) = true) :
    normalizeText raw = .ok degradedResult ∧
    ∀ (prev : Json) (kvs : Dict) (l : List Json),
      acceptedPatient (some (.obj kvs)) = some l → l.all Json.isObj = true →
      (handleMessage prev (some (.obj kvs)) (.ok raw)).outs =
        [.analysisMsg (.arr [.str "Unable to analyze"])
          (.arr [.str "Review conversation manually"]) (.arr [.str "neutral"])] := by
  have hdeg : normalizeText raw = .ok degradedResult := by
    unfold normalizeText
    dsimp only
    rw [h1]
    dsimp only
    unfold fallbackFails at h2
    cases hb : braceScanL (stripFence (pyStrip raw)).data with
    | none => rfl
    | some m =>
      rw [hb] at h2
      dsimp only at h2
      dsimp only
      have hm : loads (String.mk m) = none := by
        cases hl : loads (String.mk m) with
        | none => rfl
        | some j =>
          rw [hl] at h2
          simp at h2
      rw [hm]
  refine ⟨hdeg, ?_⟩
  intro prev kvs l hacc hobj
  rcases handleMessage_spec prev (some (.obj kvs)) (.ok raw) with
    ⟨l', hacc', hne', heq⟩ | ⟨hacc', _, _⟩
  · rw [hacc] at hacc'
    have hl : l' = l := (Option.some.inj hacc').symm
    subst hl
    rw [heq]
    have hana : analyze_conversation l' prev (.ok raw) = .ok degradedResult := by
      unfold analyze_conversation
      rw [hne', hobj]
      dsimp only
      exact hdeg
    rw [hana]
    rfl
  · rw [hacc] at hacc'
    cases hacc'

/-- C3 witness: a braceless prose reply on a concrete accepted patient
turn. -/
theorem C3_degraded_on_double_failure_witness :
    normalizeText "I cannot parse this, sorry." = .ok degradedResult ∧
    (handleMessage (.arr []) (some (.obj [("type", .str "transcript"),
      ("transcripts", .arr [.obj [("speaker", .str "patient"), ("text", .str "hi")]])]))
      (.ok "I cannot parse this, sorry.")).outs =
      [.analysisMsg (.arr [.str "Unable to analyze"])
        (.arr [.str "Review conversation manually"]) (.arr [.str "neutral"])] :=
  ⟨(C3_degraded_on_double_failure "I cannot parse this, sorry." (by rfl) (by rfl)).1,
   (C3_degraded_on_double_failure "I cannot parse this, sorry." (by rfl) (by rfl)).2
     (.arr []) _ _ (by rfl) (by rfl)⟩

/-- C4 counterexample: the empty-transcript short circuit returns a
three-field dict, so the claim that every produced AnalysisResult carries
all five fields fails on it (no `risk`, no `follow_up`). -/
theorem C4_fully_populated_counterexample :
    analyze_conversation [] (.arr []) (.ok "") = .ok emptyResult ∧
    fiveKeys emptyResult = false :=
  ⟨rfl, rfl⟩

/-- C4 (amended): the empty-turn short circuit returns the fixed
three-field shape `problems=[], nudges=[], sentiment=["neutral"]` without
consulting the analyzer (the result is independent of the analyzer
outcome), while every AnalysisResult produced for a nonempty turn
sequence carries all five fields. -/
theorem C4_fully_populated_amended :
    (∀ (prev : Json) (c : Except ApiErr String),
      analyze_conversation [] prev c = .ok emptyResult) ∧
    (∀ (prev : Json) (c c' : Except ApiErr String),
      analyze_conversation [] prev c = analyze_conversation [] prev c') ∧
    (∀ (ts : List Json) (prev : Json) (c : Except ApiErr String) (d : Dict),
      ts ≠ [] → analyze_conversation ts prev c = .ok d → fiveKeys d = true) := by
  refine ⟨fun _ _ => rfl, fun _ _ _ => rfl, ?_⟩
  intro ts prev c d hne h
  have hemp : ts.isEmpty = false := by
    cases ts with
    | nil => exact absurd rfl hne
    | cons a t => rfl
  unfold analyze_conversation at h
  rw [hemp, if_neg (by simp)] at h
  by_cases hall : ts.all Json.isObj
  · rw [if_pos hall] at h
    cases c with
    | ok raw =>
      dsimp only at h
      obtain ⟨d2, hd2, hf⟩ := normalizeText_total raw
      rw [hd2] at h
      cases h
      exact hf
    | error e =>
      dsimp only at h
      cases h
      rfl
  · rw [if_neg hall] at h
    cases h

/-- C4 witness: a nonempty transcript with an unparseable reply yields
the degraded dict, which carries all five fields. -/
theorem C4_fully_populated_witness : fiveKeys degradedResult = true :=
  C4_fully_populated_amended.2.2 [.obj []] (.arr []) (.ok "x") degradedResult
    (by simp) (by rfl)

/-- C5 counterexample: on an analyzer transport error the substituted
result is the `Error occurred` constant, not the fixed degraded
`Unable to analyze` result the claim names. -/
theorem C5_analyzer_error_counterexample :
    analyze_conversation [.obj []] (.arr []) (.error (.transport "boom")) = .ok errorResult ∧
    firstProblem errorResult ≠ firstProblem degradedResult :=
  ⟨rfl, by decide⟩

/-- C5 (amended): when the external analyzer call raises, the failure is
recovered locally by substituting the fixed result
`problems=["Error occurred"], nudges=[], sentiment=["neutral"],
follow_up="", risk=[]`; an accepted patient turn is still answered with
an `analysis`-type reply carrying those fields, and the message loop
keeps processing subsequent messages (the connection stays open). -/
theorem C5_analyzer_error_amended :
    (∀ (ts : List Json) (prev : Json) (e : ApiErr),
      ts ≠ [] → ts.all Json.isObj = true →
      analyze_conversation ts prev (.error e) = .ok errorResult) ∧
    (∀ (prev : Json) (kvs : Dict) (l : List Json) (e : ApiErr),
      acceptedPatient (some (.obj kvs)) = some l → l.all Json.isObj = true →
      (handleMessage prev (some (.obj kvs)) (.error e)).outs =
        [.analysisMsg (.arr [.str "Error occurred"]) (.arr []) (.arr [.str "neutral"])]) ∧
    (∀ (prev : Json) (m : Option Json) (c : Except ApiErr String)
        (rest : List (Option Json × Except ApiErr String)),
      (handleMessages prev ((m, c) :: rest)).outs =
        (handleMessage prev m c).outs ++
          (handleMessages (handleMessage prev m c).nudges rest).outs) := by
  have hana : ∀ (ts : List Json) (prev : Json) (e : ApiErr),
      ts ≠ [] → ts.all Json.isObj = true →
      analyze_conversation ts prev (.error e) = .ok errorResult := by
    intro ts prev e hne hall
    have hemp : ts.isEmpty = false := by
      cases ts with
      | nil => exact absurd rfl hne
      | cons a t => rfl
    unfold analyze_conversation
    rw [hemp, hall, if_neg (by simp), if_pos rfl]
  refine ⟨hana, ?_, fun _ _ _ _ => rfl⟩
  intro prev kvs l e hacc hobj
  rcases handleMessage_spec prev (some (.obj kvs)) (.error e) with
    ⟨l', hacc', hne', heq⟩ | ⟨hacc', _, _⟩
  · rw [hacc] at hacc'
    have hl : l' = l := (Option.some.inj hacc').symm
    subst hl
    rw [heq]
    have hne2 : l' ≠ [] := by
      cases l' with
      | nil => cases hne'
      | cons a t => simp
    rw [hana l' prev e hne2 hobj]
    rfl
  · rw [hacc] at hacc'
    cases hacc'

/-- C5 witness: concrete transport error on a concrete accepted patient
turn. -/
theorem C5_analyzer_error_witness :
    analyze_conversation [.obj [("speaker", .str "patient")]] (.arr [])
      (.error (.transport "down")) = .ok errorResult ∧
    (handleMessage (.arr []) (some (.obj [("type", .str "transcript"),
      ("transcripts", .arr [.obj [("speaker", .str "patient"), ("text", .str "hi")]])]))
      (.error (.transport "down"))).outs =
      [.analysisMsg (.arr [.str "Error occurred"]) (.arr []) (.arr [.str "neutral"])] :=
  ⟨C5_analyzer_error_amended.1 [.obj [("speaker", .str "patient")]] (.arr [])
      (.transport "down") (by simp) (by rfl),
   C5_analyzer_error_amended.2.1 (.arr []) _ _ (.transport "down") (by rfl) (by rfl)⟩

/-- C6 counterexample: a reply parsed through the brace-scan fallback
keeps its sentiment entries untouched (no lower-casing or trimming) and
keeps a non-list `risk` value (the repair never type-checks `risk`),
refuting the claim that the same field-level repair runs on both parse
paths. -/
theorem C6_field_repair_counterexample :
    normalizeText "xx \x7b\"sentiment\": [\" Anxiety \"], \"risk\": \"high\"\x7d" =
      .ok [("sentiment", .arr [.str " Anxiety "]), ("risk", .str "high"),
        ("problems", .arr []), ("nudges", .arr []), ("follow_up", .str "")] ∧
    pyStrip (pyLower " Anxiety ") ≠ " Anxiety " :=
  ⟨rfl, by decide⟩

/-- C6 (amended): on a successful strict-stage parse, `problems`,
`nudges` and `sentiment` are replaced by their defaults when absent or
not list-typed, `follow_up` and `risk` are defaulted only when absent
(no type check), and every sentiment entry is lower-cased and trimmed;
on a successful brace-scan fallback parse the same defaults apply, but
sentiment entries are left exactly as parsed.  Each repaired dict is
what normalization returns on its respective path. -/
theorem C6_field_repair_amended :
    (∀ (kvs d : Dict), strictRepair (.obj kvs) = .ok d →
      dictGet d "problems" = some (listOr (dictGet kvs "problems")) ∧
      dictGet d "nudges" = some (listOr (dictGet kvs "nudges")) ∧
      dictGet d "sentiment" = some (.arr ((sentimentBase kvs).map lowerTrimJ)) ∧
      dictGet d "follow_up" = some (dictGetD kvs "follow_up" (.str "")) ∧
      dictGet d "risk" = some (dictGetD kvs "risk" (.arr []))) ∧
    (∀ (kvs d : Dict), fallbackRepair (.obj kvs) = .ok d →
      dictGet d "problems" = some (listOr (dictGet kvs "problems")) ∧
      dictGet d "nudges" = some (listOr (dictGet kvs "nudges")) ∧
      dictGet d "sentiment" = some (.arr (sentimentBase kvs)) ∧
      dictGet d "follow_up" = some (dictGetD kvs "follow_up" (.str "")) ∧
      dictGet d "risk" = some (dictGetD kvs "risk" (.arr []))) ∧
    (∀ (raw : String) (kvs : Dict) (d : Dict),
      loads (stripFence (pyStrip raw)) = some (.obj kvs) →
      strictRepair (.obj kvs) = .ok d → normalizeText raw = .ok d) ∧
    (∀ (raw : String) (m : List Char) (kvs d : Dict),
      loads (stripFence (pyStrip raw)) = none →
      braceScanL (stripFence (pyStrip raw)).data = some m →
      loads (String.mk m) = some (.obj kvs) →
      fallbackRepair (.obj kvs) = .ok d → normalizeText raw = .ok d) := by
  refine ⟨fun kvs d h => strictRepair_obj_spec h,
    fun kvs d h => fallbackRepair_obj_spec h, ?_, ?_⟩
  · intro raw kvs d hl hs
    unfold normalizeText
    dsimp only
    rw [hl]
    dsimp only
    rw [hs]
  · intro raw m kvs d hl hb hm hf
    unfold normalizeText
    dsimp only
    rw [hl]
    dsimp only
    rw [hb]
    dsimp only
    rw [hm]
    dsimp only
    rw [hf]

/-- C6 witness: concrete strict-path repair with a mixed-case sentiment
entry and a non-list risk. -/
theorem C6_field_repair_witness :
    dictGet [("sentiment", Json.arr [.str "a"]), ("risk", .str "high"),
        ("problems", .arr []), ("nudges", .arr []), ("follow_up", .str "")] "sentiment" =
      some (.arr ((sentimentBase [("sentiment", Json.arr [.str " A "]),
        ("risk", .str "high")]).map lowerTrimJ)) ∧
    dictGet [("sentiment", Json.arr [.str "a"]), ("risk", .str "high"),
        ("problems", .arr []), ("nudges", .arr []), ("follow_up", .str "")] "risk" =
      some (dictGetD [("sentiment", Json.arr [.str " A "]), ("risk", .str "high")]
        "risk" (.arr [])) := by
  have h := C6_field_repair_amended.1
    [("sentiment", Json.arr [.str " A "]), ("risk", .str "high")]
    [("sentiment", Json.arr [.str "a"]), ("risk", .str "high"),
      ("problems", .arr []), ("nudges", .arr []), ("follow_up", .str "")] (by rfl)
  exact ⟨h.2.2.1, h.2.2.2.2⟩

/-- C7 counterexample: an empty parsed sentiment list is preserved as
`[]`, not replaced by `["neutral"]` as the claim states. -/
theorem C7_sentiment_default_counterexample :
    normalizeText "\x7b\"sentiment\": []\x7d" =
      .ok [("sentiment", .arr []), ("problems", .arr []), ("nudges", .arr []),
        ("follow_up", .str ""), ("risk", .arr [])] ∧
    Json.arr [] ≠ Json.arr [.str "neutral"] :=
  ⟨rfl, by simp⟩

/-- C7 (amended): the repaired `sentiment` defaults to `["neutral"]`
when the parsed field is absent or not list-typed; an empty parsed
sentiment list passes through unchanged. -/
theorem C7_sentiment_default_amended :
    (∀ (kvs d : Dict),
      (dictGet kvs "sentiment" = none ∨
        ∀ l, dictGet kvs "sentiment" ≠ some (.arr l)) →
      strictRepair (.obj kvs) = .ok d →
      dictGet d "sentiment" = some (.arr [.str "neutral"])) ∧
    (∀ (kvs d : Dict), dictGet kvs "sentiment" = some (.arr []) →
      strictRepair (.obj kvs) = .ok d →
      dictGet d "sentiment" = some (.arr [])) := by
  constructor
  · intro kvs d hna h
    have hs := (strictRepair_obj_spec h).2.2.1
    have hbase : sentimentBase kvs = [.str "neutral"] := by
      unfold sentimentBase
      cases hg : dictGet kvs "sentiment" with
      | none => rfl
      | some v =>
        cases v with
        | arr l =>
          rcases hna with hna | hna
          · rw [hg] at hna
            cases hna
          · exact absurd hg (hna l)
        | null => rfl
        | bool b => rfl
        | num n => rfl
        | str s => rfl
        | obj o => rfl
    rw [hbase] at hs
    simpa [lowerTrimJ] using hs
  · intro kvs d hg h
    have hs := (strictRepair_obj_spec h).2.2.1
    have hbase : sentimentBase kvs = [] := by
      unfold sentimentBase
      rw [hg]
    rw [hbase] at hs
    simpa using hs

/-- C7 witness: concrete absent-sentiment and empty-sentiment dicts. -/
theorem C7_sentiment_default_witness :
    dictGet [("problems", Json.arr []), ("nudges", .arr []),
        ("sentiment", .arr [.str "neutral"]), ("follow_up", .str ""), ("risk", .arr [])]
      "sentiment" = some (.arr [.str "neutral"]) ∧
    dictGet [("sentiment", Json.arr []), ("problems", .arr []), ("nudges", .arr []),
        ("follow_up", .str ""), ("risk", .arr [])] "sentiment" = some (.arr []) :=
  ⟨C7_sentiment_default_amended.1 [] _ (Or.inl rfl) (by rfl),
   C7_sentiment_default_amended.2 [("sentiment", Json.arr [])] _ (by rfl) (by rfl)⟩

/-- C8 counterexample: a valid AnalysisResult whose content contains a
triple-backtick fence is mangled by fence stripping, so normalizing its
JSON encoding does not return it. -/
theorem C8_roundtrip_counterexample :
    normalizeText (encodeResult ⟨["```"], [], ["neutral"], "", []⟩) ≠
      .ok (toDict ⟨["```"], [], ["neutral"], "", []⟩) := by
  intro h
  have h1 : normalizeText (encodeResult ⟨["```"], [], ["neutral"], "", []⟩) =
      .ok degradedResult := by rfl
  have h2 : degradedResult = toDict ⟨["```"], [], ["neutral"], "", []⟩ :=
    Except.ok.inj (h1.symm.trans h)
  have h3 := congrArg firstProblem h2
  exact absurd h3 (by decide)

/-- C8 (amended): for every AnalysisResult with all five fields present
and correctly typed, whose JSON encoding contains no triple-backtick
fence and whose sentiment entries are fixed points of lower-casing and
trimming, normalizing the encoding returns exactly its dict. -/
theorem C8_roundtrip_amended (r : AnalysisResult)
    (hfence : hasSubL "```".data (encodeResult r).data = false)
    (hsent : ∀ s ∈ r.sentiment, pyStrip (pyLower s) = s) :
    normalizeText (encodeResult r) = .ok (toDict r) := by
  unfold normalizeText
  dsimp only
  rw [pyStrip_encodeResult, stripFence_id hfence, loads_encodeResult]
  dsimp only
  rw [strictRepair_toDict r hsent]

/-- C8 witness: a concrete fence-free, lower-case valid result
round-trips. -/
theorem C8_roundtrip_witness :
    hasSubL "```".data (encodeResult ⟨["a"], ["b"], ["calm"], "", ["low"]⟩).data = false ∧
    (∀ s ∈ (⟨["a"], ["b"], ["calm"], "", ["low"]⟩ : AnalysisResult).sentiment,
      pyStrip (pyLower s) = s) ∧
    normalizeText (encodeResult ⟨["a"], ["b"], ["calm"], "", ["low"]⟩) =
      .ok (toDict ⟨["a"], ["b"], ["calm"], "", ["low"]⟩) :=
  ⟨by rfl, by decide, C8_roundtrip_amended ⟨["a"], ["b"], ["calm"], "", ["low"]⟩
    (by rfl) (by decide)⟩

/-- C9 counterexample: a last turn whose speaker is `"Patient"` is not in
the literal set `\x7bpatient, counselor\x7d`, yet the turn is not dropped: a
reply is produced (validation lower-cases the speaker first). -/
theorem C9_invalid_turn_counterexample :
    ("Patient" ≠ "patient" ∧ "Patient" ≠ "counselor") ∧
    (handleMessage (.arr []) (some (.obj [("type", .str "transcript"),
      ("transcripts", .arr [.obj [("speaker", .str "Patient"), ("text", .str "hi")]])]))
      (.ok "x")).outs ≠ [] := by
  refine ⟨⟨by decide, by decide⟩, ?_⟩
  intro h
  have h1 : (handleMessage (.arr []) (some (.obj [("type", .str "transcript"),
      ("transcripts", .arr [.obj [("speaker", .str "Patient"), ("text", .str "hi")]])]))
      (.ok "x")).outs =
      [.analysisMsg (.arr [.str "Unable to analyze"])
        (.arr [.str "Review conversation manually"]) (.arr [.str "neutral"])] := rfl
  rw [h1] at h
  simp at h

/-- C9 (amended): a transcript message whose truthy last turn is an
object with a string speaker whose lower-casing is not in
`\x7bpatient, counselor\x7d`, or with a string text equal to the empty string,
is silently dropped: no reply, no analysis, carried guidance unchanged,
no exception. -/
theorem C9_invalid_turn_amended (prev : Json) (c : Except ApiErr String)
    (kvs turnKvs : Dict) (l : List Json) (sp txt : String)
    (h1 : dictGet kvs "type" = some (.str "transcript"))
    (h2 : dictGetD kvs "transcripts" (.arr []) = .arr l)
    (h3 : pyTruthy (.arr l) = true)
    (h4 : l.getLast? = some (.obj turnKvs))
    (h5 : pyTruthy (.obj turnKvs) = true)
    (h6 : dictGetD turnKvs "speaker" (.str "") = .str sp)
    (h7 : dictGetD turnKvs "text" (.str "") = .str txt)
    (h8 : (pyLower sp ≠ "patient" ∧ pyLower sp ≠ "counselor") ∨ txt = "") :
    handleMessage prev (some (.obj kvs)) c = ⟨prev, [], []⟩ := by
  unfold handleMessage handleTranscript
  try dsimp only
  rw [h1]
  try dsimp only
  rw [if_pos rfl, h2]
  try dsimp only
  rw [if_pos h3]
  try dsimp only
  rw [h4]
  try dsimp only
  rw [if_pos h5]
  try dsimp only
  rw [h6]
  try dsimp only
  rw [h7]
  have hc : ¬((pyLower sp = "patient" ∨ pyLower sp = "counselor") ∧
      pyTruthy (Json.str txt) = true) := by
    rcases h8 with ⟨hp, hq⟩ | hempty
    · exact fun hcond => hcond.1.elim hp hq
    · intro hcond
      rw [hempty] at hcond
      exact absurd hcond.2 (by decide)
  rw [if_neg hc]

/-- C9 witness: a concrete `"nurse"` turn is silently dropped. -/
theorem C9_invalid_turn_witness :
    handleMessage (.arr []) (some (.obj [("type", .str "transcript"),
      ("transcripts", .arr [.obj [("speaker", .str "nurse"), ("text", .str "hi")]])]))
      (.ok "x") = ⟨.arr [], [], []⟩ :=
  C9_invalid_turn_amended (.arr []) (.ok "x") _ _ _ "nurse" "hi"
    (by rfl) (by rfl) (by rfl) (by rfl) (by rfl) (by rfl) (by rfl)
    (Or.inl ⟨by decide, by decide⟩)

/-- C10: speaker validation is case-insensitive: a truthy last turn whose
string speaker differs from `patient`/`counselor` only by letter case is
accepted, and the lower-cased value decides between analysis (patient)
and acknowledgement (counselor). -/
theorem C10_case_insensitive_speaker (prev : Json) (c : Except ApiErr String)
    (kvs turnKvs : Dict) (l : List Json) (sp txt : String)
    (h1 : dictGet kvs "type" = some (.str "transcript"))
    (h2 : dictGetD kvs "transcripts" (.arr []) = .arr l)
    (h3 : pyTruthy (.arr l) = true)
    (h4 : l.getLast? = some (.obj turnKvs))
    (h5 : pyTruthy (.obj turnKvs) = true)
    (h6 : dictGetD turnKvs "speaker" (.str "") = .str sp)
    (h7 : dictGetD turnKvs "text" (.str "") = .str txt)
    (h8 : txt ≠ "")
    (h9 : pyLower sp = "patient" ∨ pyLower sp = "counselor") :
    (handleMessage prev (some (.obj kvs)) c).outs ≠ [] ∧
    (pyLower sp = "patient" →
      (handleMessage prev (some (.obj kvs)) c).invs = [(l, prev)]) ∧
    (pyLower sp = "counselor" →
      (handleMessage prev (some (.obj kvs)) c).outs = [.acknowledged] ∧
      (handleMessage prev (some (.obj kvs)) c).invs = []) := by
  have heq : handleMessage prev (some (.obj kvs)) c =
      if pyLower sp = "patient" then
        (match analyze_conversation l prev c with
         | .ok d =>
           ⟨dictGetD d "nudges" (.arr []),
            [.analysisMsg (dictGetD d "problems" (.arr []))
               (dictGetD d "nudges" (.arr []))
               (dictGetD d "sentiment" (.arr [.str "neutral"]))],
            [(l, prev)]⟩
         | .error e => ⟨prev, [.excError e], [(l, prev)]⟩)
      else ⟨prev, [.acknowledged], []⟩ := by
    unfold handleMessage handleTranscript
    try dsimp only
    rw [h1]
    try dsimp only
    rw [if_pos rfl, h2]
    try dsimp only
    rw [if_pos h3]
    try dsimp only
    rw [h4]
    try dsimp only
    rw [if_pos h5]
    try dsimp only
    rw [h6]
    try dsimp only
    rw [h7]
    rw [if_pos ⟨h9, by simp [pyTruthy, h8]⟩]
  refine ⟨?_, ?_, ?_⟩
  · rw [heq]
    by_cases hpat : pyLower sp = "patient"
    · rw [if_pos hpat]
      cases han : analyze_conversation l prev c with
      | ok d => simp
      | error e => simp
    · rw [if_neg hpat]
      simp
  · intro hpat
    rw [heq, if_pos hpat]
    cases han : analyze_conversation l prev c with
    | ok d => rfl
    | error e => rfl
  · intro hcouns
    have hpat : pyLower sp ≠ "patient" := by
      rw [hcouns]
      decide
    rw [heq, if_neg hpat]
    exact ⟨rfl, rfl⟩

/-- C10 witness: `"Patient"` is analyzed; `"COUNSELOR"` is
acknowledged. -/
theorem C10_case_insensitive_speaker_witness :
    (handleMessage (.arr []) (some (.obj [("type", .str "transcript"),
      ("transcripts", .arr [.obj [("speaker", .str "Patient"), ("text", .str "hi")]])]))
      (.ok "x")).invs =
      [([Json.obj [("speaker", .str "Patient"), ("text", .str "hi")]], .arr [])] ∧
    (handleMessage (.arr []) (some (.obj [("type", .str "transcript"),
      ("transcripts", .arr [.obj [("speaker", .str "COUNSELOR"), ("text", .str "hi")]])]))
      (.ok "x")).outs = [.acknowledged] :=
  ⟨(C10_case_insensitive_speaker (.arr []) (.ok "x") _ _ _ "Patient" "hi"
      (by rfl) (by rfl) (by rfl) (by rfl) (by rfl) (by rfl) (by rfl)
      (by decide) (Or.inl (by rfl))).2.1 (by rfl),
   ((C10_case_insensitive_speaker (.arr []) (.ok "x") _ _ _ "COUNSELOR" "hi"
      (by rfl) (by rfl) (by rfl) (by rfl) (by rfl) (by rfl) (by rfl)
      (by decide) (Or.inr (by rfl))).2.2 (by rfl)).1⟩
